import Mathlib

/-!
# json-lossless: the overlay handle, the path setter and the two sync directions

A shallow embedding of `lossless.go`.

* Go values held in the document tree and in record fields are `Val α`: the
  package itself only tells apart strings (`p.(string)`), maps of type
  `map[string]interface{}` (through simplejson's `Map()`) and everything
  else; all other non-nil Go values (numbers, booleans, slices, times, ...)
  live in the parameter `α`.
* A Go `map[string]interface{}` is an association list; `mapGet` `mapSet`
  are the index expression `m[k]` and the assignment `m[k] = v`.
* Go maps are references.  A mutation made through a cursor into the tree is
  visible from the root; in the value model the updated child is stored
  back under the key it was fetched from.
* `reflect.TypeOf`, `json.Marshal`, `json.Unmarshal`, `strings.ToLower` and
  `simplejson.NewJson` belong to libraries outside the package; they are the
  fields of `GoEnv`.
* `json.Unmarshal(marsh, fv)` is handed the address of a field and decodes
  into the map or pointer target the field already holds when there is one.
  Values in `α` may therefore be references, and `GoEnv.unmarshal` returns
  the whole record afterwards: it may differ from the record before at every
  field that holds the same map or pointer.
* The order in which `range` visits a Go map is unspecified: `syncToStruct`
  receives the visiting sequence as the argument `order`.
* Reflection panics (unexported fields) are outside the model: the
  non-excluded fields of a record type are exported.
-/

namespace Lossless

/-! ## Go values -/

/-- Go values as far as the package inspects them. `null` is the nil interface,
`str` a Go `string`, `obj` a `map[string]interface{}`, `other` any other Go value. -/
inductive Val (α : Type) where
  | null
  | str (s : String)
  | obj (kvs : List (String × Val α))
  | other (a : α)

/-- Go error values. -/
abbrev Error := String

/-- Index expression `m[k]` with the comma-ok result. -/
def mapGet {β : Type} : List (String × β) → String → Option β
  | [], _ => none
  | (k', v') :: rest, k => if k' = k then some v' else mapGet rest k

/-- Assignment `m[k] = v`: an existing key keeps its place and gets the new value, a
new key is added. -/
def mapSet {β : Type} : List (String × β) → String → β → List (String × β)
  | [], k, v => [(k, v)]
  | (k', v') :: rest, k, v =>
    if k' = k then (k', v) :: rest else (k', v') :: mapSet rest k v

/-! ## go-simplejson: the calls the package makes -/

/-- `(*simplejson.Json).Map`: the type assertion to `map[string]interface{}`; `none`
is the error result. -/
def Val.Map {α : Type} : Val α → Option (List (String × Val α))
  | .obj kvs => some kvs
  | _ => none

/-- `(*simplejson.Json).Set(key, val)`: `m[key] = val` when the receiver is a map,
nothing otherwise. -/
def Val.Set {α : Type} (j : Val α) (key : String) (val : Val α) : Val α :=
  match j.Map with
  | some m => .obj (mapSet m key val)
  | none => j

/-- `(*simplejson.Json).CheckGet(key)`: the value under `key` and `true` when the
receiver is a map that has the key (whatever the value is), `nil, false` otherwise. -/
def Val.CheckGet {α : Type} (j : Val α) (key : String) : Option (Val α) :=
  match j.Map with
  | some m => mapGet m key
  | none => none

/-- `(*simplejson.Json).Get(key)`: as `CheckGet`, with a `Json` wrapping `nil` when
the lookup fails. -/
def Val.Get {α : Type} (j : Val α) (key : String) : Val α :=
  match j.CheckGet key with
  | some val => val
  | none => Val.null

/-! ## The overlay handle and the path setter -/

/-- `type JSON struct { json *simplejson.Json }`; `none` is the nil pointer. -/
structure JSON (α : Type) where
  json : Option (Val α)

/-- `maybeInit`: a nil tree becomes the parse of the two bytes `{}`, the empty
object. -/
def JSON.maybeInit {α : Type} (js : JSON α) : JSON α :=
  match js.json with
  | none => { json := some (Val.obj []) }
  | some _ => js

/-- The tree `js.json` points to once `maybeInit` has run. -/
def JSON.tree {α : Type} (js : JSON α) : Val α :=
  match js.json with
  | none => Val.obj []
  | some j => j

/-- The loop of `Set` (lines 37-50) followed by `j.Set(key, v)` (line 52), run with
the cursor at `j`.  Returns what the object at the cursor holds afterwards and the
error, if a segment is not a string.  A segment the cursor has no entry for gets a
fresh empty map (line 45) and the cursor moves to `j.Get(strp)` (line 46); a segment
with an entry moves the cursor to that entry, whatever it holds (line 48). -/
def setLoop {α : Type} (key : String) (v : Val α) :
    List (Val α) → Val α → Val α × Option Error
  | [], j => (j.Set key v, none)
  | p :: ps, j =>
    match p with
    | .str strp =>
      match j.CheckGet strp with
      | none =>
        let j1 := j.Set strp (Val.obj [])
        let r := setLoop key v ps (j1.Get strp)
        (j1.Set strp r.1, r.2)
      | some newj =>
        let r := setLoop key v ps newj
        (j.Set strp r.1, r.2)
    | _ => (j, some "all args except last must be strings")

/-- `func (js *JSON) Set(args ...interface{}) error`: the handle afterwards and the
returned error. -/
def JSON.Set {α : Type} (js : JSON α) (args : List (Val α)) :
    JSON α × Option Error :=
  let js1 := js.maybeInit
  if args.length < 2 then
    (js1, some "rs must contain a path and value")
  else
    match args[args.length - 1]?, args[args.length - 2]? with
    | some v, some (.str key) =>
      let r := setLoop key v (args.take (args.length - 2)) js1.tree
      ({ json := some r.1 }, r.2)
    | _, _ => (js1, some "all args except last must be strings")

/-! ## Record types, records and the library environment -/

/-- One `reflect.StructField` of the record type: the identifier, the value of
`sf.Tag.Get("json")` (the empty string when the field has no json tag) and the
field type. -/
structure StructField (τ : Type) where
  Name : String
  tag : String
  type : τ

/-- A record value: `dv.Field(i)` for every field index. -/
abbrev Record (α : Type) := Nat → Val α

/-- The library functions the package calls. `unmarshal data t i dv` is
`json.Unmarshal(data, fv)` with `fv` the address of the field of index `i` (of type
`t`) of the record `dv` (lines 127-128): the record afterwards and the error.  The
decoder writes into the map or pointer target the field already holds, so the
record afterwards may differ from `dv` at every field that holds the same map or
pointer. -/
structure GoEnv (α τ : Type) where
  typeOf : Val α → τ
  marshal : Val α → Except Error String
  unmarshal : String → τ → Nat → Record α → Record α × Option Error
  toLower : String → String
  newJson : String → Except Error (Val α)

/-- One pass of the loop at lines 83-96: the registrations a field makes in
`tagmap`. -/
def tagmapStep {α τ : Type} (env : GoEnv α τ) (tagmap : List (String × String))
    (sf : StructField τ) : List (String × String) :=
  if sf.tag = "-" then tagmap
  else
    let tagmap1 := mapSet tagmap sf.Name sf.Name
    if sf.tag = "" then mapSet tagmap1 (env.toLower sf.Name) sf.Name
    else mapSet tagmap1 sf.tag sf.Name

/-- The table `tagmap` of `syncToStruct` (lines 82-96). -/
def buildTagmap {α τ : Type} (env : GoEnv α τ) (dt : List (StructField τ)) :
    List (String × String) :=
  dt.foldl (tagmapStep env) []

/-- `dv.FieldByName(name)`: index and descriptor of the field of that name; `none`
is the invalid Value. -/
def FieldByName {τ : Type} : List (StructField τ) → String → Option (Nat × StructField τ)
  | [], _ => none
  | sf :: rest, name =>
    if sf.Name = name then some (0, sf)
    else (FieldByName rest name).map (fun p => (p.1 + 1, p.2))

/-- The field a document key is routed to by lines 104-112. -/
def resolve {α τ : Type} (env : GoEnv α τ) (dt : List (StructField τ)) (k : String) :
    Option (Nat × StructField τ) :=
  match mapGet (buildTagmap env dt) k with
  | none => none
  | some name => FieldByName dt name

/-- Lines 114-132 for one matched pair: direct assignment when the dynamic type of
the tree value is the field type, the marshal/unmarshal round trip otherwise. -/
def assign {α τ : Type} [DecidableEq τ] (env : GoEnv α τ) (dv : Record α) (i : Nat)
    (sf : StructField τ) (v : Val α) : Record α × Option Error :=
  if env.typeOf v = sf.type then (Function.update dv i v, none)
  else
    match env.marshal v with
    | .error err => (dv, some err)
    | .ok marsh => env.unmarshal marsh sf.type i dv

/-- The body of the loop at lines 103-133 for one entry of the root map. -/
def syncEntry {α τ : Type} [DecidableEq τ] (env : GoEnv α τ) (dt : List (StructField τ))
    (dv : Record α) (k : String) (v : Val α) : Record α × Option Error :=
  match resolve env dt k with
  | none => (dv, none)
  | some (i, sf) => assign env dv i sf v

/-- The loop at lines 103-133 over the entries in the order they are visited; stops
at the first error. -/
def syncLoop {α τ : Type} [DecidableEq τ] (env : GoEnv α τ) (dt : List (StructField τ)) :
    List (String × Val α) → Record α → Record α × Option Error
  | [], dv => (dv, none)
  | (k, v) :: rest, dv =>
    match syncEntry env dt dv k v with
    | (dv1, some err) => (dv1, some err)
    | (dv1, none) => syncLoop env dt rest dv1

/-- `syncToStruct(dest, j)`: the record afterwards and the returned error. `order` is
the sequence in which `range m` yields the entries of the root map. -/
def syncToStruct {α τ : Type} [DecidableEq τ] (env : GoEnv α τ) (dt : List (StructField τ))
    (dv : Record α) (j : Val α) (order : List (String × Val α)) : Record α × Option Error :=
  match j.Map with
  | none => (dv, some "type assertion to map[string]interface\x7b\x7d failed")
  | some _ => syncLoop env dt order dv

/-- The key `syncFromStruct` writes a non-excluded field under (lines 151-156). -/
def effectiveKey {τ : Type} (sf : StructField τ) : String :=
  if sf.tag = "" then sf.Name else sf.tag

/-- The loop of `syncFromStruct` (lines 144-160) from field index `i` on. -/
def syncFromLoop {α τ : Type} (dv : Record α) : List (StructField τ) → Nat → Val α → Val α
  | [], _, j => j
  | sf :: rest, i, j =>
    if sf.tag = "-" then syncFromLoop dv rest (i + 1) j
    else syncFromLoop dv rest (i + 1) (j.Set (effectiveKey sf) (dv i))

/-- `syncFromStruct(src, j)`: the tree afterwards (the returned error is always
nil). -/
def syncFromStruct {α τ : Type} (dt : List (StructField τ)) (dv : Record α) (j : Val α) :
    Val α :=
  syncFromLoop dv dt 0 j

/-- `func (js *JSON) UnmarshalJSON(dest, data) error`: handle and record
afterwards, and the returned error. -/
def JSON.UnmarshalJSON {α τ : Type} [DecidableEq τ] (env : GoEnv α τ)
    (dt : List (StructField τ)) (js : JSON α) (dv : Record α) (data : String)
    (order : List (String × Val α)) : JSON α × Record α × Option Error :=
  match env.newJson data with
  | .error err => (js, dv, some err)
  | .ok j =>
    let r := syncToStruct env dt dv j order
    ({ json := some j }, r.1, r.2)

/-- `func (js *JSON) MarshalJSON(src) ([]byte, error)`: the handle afterwards and
the result of `json.Marshal(js.json)`. -/
def JSON.MarshalJSON {α τ : Type} (env : GoEnv α τ) (dt : List (StructField τ))
    (js : JSON α) (dv : Record α) : JSON α × Except Error String :=
  let j := syncFromStruct dt dv js.maybeInit.tree
  ({ json := some j }, env.marshal j)

/-- The keys a field enters in `tagmap` (lines 86-95): none for an excluded field,
otherwise the identifier and either its lowercase form (no tag) or the tag. -/
def registers {α τ : Type} (env : GoEnv α τ) (sf : StructField τ) (k : String) : Prop :=
  sf.tag ≠ "-" ∧ (k = sf.Name ∨ k = (if sf.tag = "" then env.toLower sf.Name else sf.tag))

instance {α τ : Type} (env : GoEnv α τ) (sf : StructField τ) (k : String) :
    Decidable (registers env sf k) := by
  unfold registers; infer_instance

/-- Whether the root entry `e` is routed to the field of index `i` by lines 104-112. -/
def routedTo {α τ : Type} (env : GoEnv α τ) (dt : List (StructField τ)) (i : Nat)
    (e : String × Val α) : Bool :=
  match resolve env dt e.1 with
  | some (j, _) => decide (j = i)
  | none => false

/-- Follow the segments from `j` with `Get`. -/
def walk {α : Type} : Val α → List String → Val α
  | j, [] => j
  | j, p :: ps => walk (j.Get p) ps

/-- The cursor of `Set` meets only maps along the segments: `j` is a map, and so is
every value already stored at a segment that is followed. -/
def pathClear {α : Type} : Val α → List String → Prop
  | j, [] => j.Map.isSome = true
  | j, p :: ps =>
    j.Map.isSome = true ∧
      match j.CheckGet p with
      | none => True
      | some c => pathClear c ps

/-- The loop of `Set` creates no entry on these segments: up to the first segment
that is not a string, whenever the cursor is on a map the segment is a key of it. -/
def noCreation {α : Type} : Val α → List (Val α) → Prop
  | _, [] => True
  | j, p :: ps =>
    match p with
    | .str strp =>
      match j.Map with
      | none => True
      | some m =>
        match mapGet m strp with
        | none => False
        | some c => noCreation c ps
    | _ => True

/-- The keys the table of decode gets from one field, in the words of the mapping
table: none for an excluded field; the identifier and the tag for a tagged field;
the identifier and its lowercase form for an untagged one. -/
def specKeys {α τ : Type} (env : GoEnv α τ) (sf : StructField τ) : List String :=
  if sf.tag = "-" then []
  else if sf.tag = "" then [sf.Name, env.toLower sf.Name]
  else [sf.Name, sf.tag]

/-- What the field of index `i` holds after one entry routed to it has been
processed on the record `dv`, for the first such entry of `entries`; the old value
when no entry is routed to the field. -/
def fieldAfter {α τ : Type} [DecidableEq τ] (env : GoEnv α τ) (dt : List (StructField τ))
    (dv : Record α) (entries : List (String × Val α)) (i : Nat) : Val α :=
  match entries.filter (routedTo env dt i) with
  | [] => dv i
  | e :: _ => (syncEntry env dt dv e.1 e.2).1 i

/-- The field of index `i` shares no map or pointer with another field:
`json.Unmarshal` into another field leaves it as it is. -/
def unshared {α τ : Type} (env : GoEnv α τ) (i : Nat) : Prop :=
  ∀ (data : String) (t : τ) (x : Nat) (dv : Record α), x ≠ i →
    (env.unmarshal data t x dv).1 i = dv i

/-- No two fields share a map or pointer: `json.Unmarshal` into a field changes that
field only, and what it leaves there (`f`) depends on the bytes, the field type and
what the field held. -/
def fieldwise {α τ : Type} (env : GoEnv α τ)
    (f : String → τ → Val α → Val α × Option Error) : Prop :=
  ∀ (data : String) (t : τ) (i : Nat) (dv : Record α),
    env.unmarshal data t i dv = (Function.update dv i (f data t (dv i)).1, (f data t (dv i)).2)

/-- A run of `Set` calls on one handle, errors ignored. -/
def applySets {α : Type} (js : JSON α) (calls : List (List (Val α))) : JSON α :=
  calls.foldl (fun h args => (h.Set args).1) js

/-! ## The fixture of `lossless_test.go`

An instance of `GoEnv` for the values the tests use: the `Person` record type, the
document `jsondata`, and the library functions on the scalar values met there. -/

/-- Go values of the fixture other than strings and maps. -/
inductive GoVal where
  | bool (b : Bool)
  | float64 (n : Int)
  | int (n : Int)
  | time (rfc3339 : String)
  | handle
  deriving DecidableEq

/-- Go types of the fixture. -/
inductive GoType where
  | nil
  | string
  | map
  | bool
  | float64
  | int
  | time
  | handle
  deriving DecidableEq

/-- `reflect.TypeOf` on the fixture values. -/
def goTypeOf : Val GoVal → GoType
  | .null => .nil
  | .str _ => .string
  | .obj _ => .map
  | .other (.bool _) => .bool
  | .other (.float64 _) => .float64
  | .other (.int _) => .int
  | .other (.time _) => .time
  | .other .handle => .handle

/-- `json.Marshal` on the scalar fixture values (strings without characters that
need escaping; numbers with an integer value). -/
def goMarshal : Val GoVal → Except Error String
  | .null => .ok "null"
  | .str s => .ok ("\"" ++ s ++ "\"")
  | .other (.bool b) => .ok (if b then "true" else "false")
  | .other (.float64 n) => .ok (toString n)
  | .other (.int n) => .ok (toString n)
  | .other (.time t) => .ok ("\"" ++ t ++ "\"")
  | _ => .error "json: unsupported value in fixture"

/-- Decimal digits to a number. -/
def readDigits : List Char → Nat → Option Nat
  | [], acc => some acc
  | c :: cs, acc => if c.isDigit then readDigits cs (acc * 10 + (c.toNat - 48)) else none

/-- An integer literal. -/
def readInt : List Char → Option Int
  | [] => none
  | '-' :: c :: cs => (readDigits (c :: cs) 0).map (fun n => - (n : Int))
  | c :: cs => (readDigits (c :: cs) 0).map (fun n => (n : Int))

/-- A string literal without escapes: the text between the quotes. -/
def readQuoted : List Char → Option String
  | '"' :: c :: cs => if (c :: cs).getLast? = some '"' then some (String.mk (c :: cs).dropLast) else none
  | _ => none

/-- `json.Unmarshal` into a field of a scalar fixture type: what the field holds
afterwards and the error. `null` leaves the field as it is.  The fixture values hold
no map or pointer, so no other field is written. -/
def goUnmarshal (data : String) (t : GoType) (old : Val GoVal) : Val GoVal × Option Error :=
  if data = "null" then (old, none)
  else
    match t with
    | .string =>
      match readQuoted data.data with
      | some s => (.str s, none)
      | none => (old, some "json: cannot unmarshal into Go value of type string")
    | .time =>
      match readQuoted data.data with
      | some s => (.other (.time s), none)
      | none => (old, some "parsing time: cannot parse")
    | .int =>
      match readInt data.data with
      | some n => (.other (.int n), none)
      | none => (old, some "json: cannot unmarshal into Go value of type int")
    | .float64 =>
      match readInt data.data with
      | some n => (.other (.float64 n), none)
      | none => (old, some "json: cannot unmarshal into Go value of type float64")
    | .bool =>
      if data = "true" then (.other (.bool true), none)
      else if data = "false" then (.other (.bool false), none)
      else (old, some "json: cannot unmarshal into Go value of type bool")
    | _ => (old, some "json: unsupported type in fixture")

/-- The text of `jsondata`. -/
def jsondata : String :=
  "\x7b\"name\": \"Jack Wolfington\", \"age\": 42, \"address\": \"123 Fake St.\", \"CreatedAt\": \"2013-09-16T10:44:40.295451647-00:00\", \"Ignored\": true, \"Extra\": \x7b\"foo\": \"bar\"\x7d\x7d"

/-- The entries of the root object of `jsondata`. -/
def jsondataEntries : List (String × Val GoVal) :=
  [("name", .str "Jack Wolfington"), ("age", .other (.float64 42)),
    ("address", .str "123 Fake St."),
    ("CreatedAt", .str "2013-09-16T10:44:40.295451647-00:00"),
    ("Ignored", .other (.bool true)), ("Extra", .obj [("foo", .str "bar")])]

/-- The tree `simplejson.NewJson` builds from `jsondata` (lines 29-35 of the test
file). -/
def jsondataTree : Val GoVal := .obj jsondataEntries

/-- A document with the single key `ADDRESS`, and its text. -/
def upperDocEntries : List (String × Val GoVal) := [("ADDRESS", .str "1 Main St.")]

/-- The text of the document with the single key `ADDRESS`. -/
def upperDoc : String := "\x7b\"ADDRESS\": \"1 Main St.\"\x7d"

/-- The documents the fixture parser knows. -/
def fixtureDocs : List (String × Val GoVal) :=
  [(jsondata, jsondataTree), (upperDoc, .obj upperDocEntries)]

/-- The parser as its graph on the documents of the fixture. -/
def goNewJson (docs : List (String × Val GoVal)) (data : String) : Except Error (Val GoVal) :=
  match mapGet docs data with
  | some j => .ok j
  | none => .error "unexpected end of JSON input"

/-- The fixture environment; `docs` lists the documents the parser is asked for.
`json.Unmarshal` changes the field it is pointed at and no other. -/
def goEnv (docs : List (String × Val GoVal)) : GoEnv GoVal GoType where
  typeOf := goTypeOf
  marshal := goMarshal
  unmarshal := fun data t i dv =>
    (Function.update dv i (goUnmarshal data t (dv i)).1, (goUnmarshal data t (dv i)).2)
  toLower := fun s => String.mk (s.data.map Char.toLower)
  newJson := goNewJson docs

/-- The record type `Person` of the test file (lines 9-17). -/
def personType : List (StructField GoType) :=
  [{ Name := "JSON", tag := "-", type := .handle },
   { Name := "Name", tag := "name", type := .string },
   { Name := "Age", tag := "age", type := .int },
   { Name := "Address", tag := "", type := .string },
   { Name := "CreatedAt", tag := "", type := .time },
   { Name := "Ignored", tag := "-", type := .bool }]

/-- The zero value of `Person`. -/
def personZero : Record GoVal
  | 0 => .other .handle
  | 1 => .str ""
  | 2 => .other (.int 0)
  | 3 => .str ""
  | 4 => .other (.time "0001-01-01T00:00:00Z")
  | _ => .other (.bool false)

/-- The record of `TestEncode` (lines 71-77 of the test file), the time written as
its RFC 3339 text. -/
def personEncode : Record GoVal
  | 0 => .other .handle
  | 1 => .str "Wolf Jackington"
  | 2 => .other (.int 33)
  | 3 => .str "742 Evergreen Terrace"
  | 4 => .other (.time "2013-09-16T10:44:40Z")
  | _ => .other (.bool true)

/-- A record type with two fields tagged `x`, and a record of it. -/
def twinType : List (StructField GoType) :=
  [{ Name := "A", tag := "x", type := .string }, { Name := "B", tag := "x", type := .string }]

/-- A record of `twinType`. -/
def twinRecord : Record GoVal
  | 0 => .str "first"
  | _ => .str "second"

/-- The tree of the document with the single entry `"a": 1`. -/
def scalarTree : Val GoVal := .obj [("a", .other (.float64 1))]

/-- The entries of a document whose `age` is a string. -/
def badAgeEntries : List (String × Val GoVal) := [("name", .str "Jack"), ("age", .str "old")]

/-- The text of the document whose `age` is a string. -/
def badAgeDoc : String := "\x7b\"name\": \"Jack\", \"age\": \"old\"\x7d"

/-- Further documents for the fixture parser: a number at the root, and the document
whose `age` is a string.  Any other text is reported as malformed. -/
def moreDocs : List (String × Val GoVal) :=
  [("42", .other (.float64 42)), (badAgeDoc, .obj badAgeEntries),
    (upperDoc, .obj upperDocEntries)]

/-- A record type whose only field carries the tag `name,omitempty`. -/
def omitType : List (StructField GoType) :=
  [{ Name := "Name", tag := "name,omitempty", type := .string }]

/-- A record type in which the identifier of the second field is the tag of the
first. -/
def shadowType : List (StructField GoType) :=
  [{ Name := "Foo", tag := "Bar", type := .string },
   { Name := "Bar", tag := "baz", type := .string }]

/-- A record of `shadowType`. -/
def shadowRecord : Record GoVal
  | 0 => .str "one"
  | _ => .str "two"

/-- The entries `syncFromStruct` writes for `shadowRecord`. -/
def shadowEntries : List (String × Val GoVal) := [("Bar", .str "one"), ("baz", .str "two")]

/-- The entries `syncFromStruct` writes for `personEncode`. -/
def personEncodeEntries : List (String × Val GoVal) :=
  [("name", .str "Wolf Jackington"), ("age", .other (.int 33)),
    ("Address", .str "742 Evergreen Terrace"),
    ("CreatedAt", .other (.time "2013-09-16T10:44:40Z"))]

/-! ## A fixture with a shared pointer

Records whose fields hold the same non-nil `*int`. -/

/-- Go values of the sharing fixture other than strings and maps: a number of a
document, and a non-nil `*int` given by its address and the integer stored there. -/
inductive PtrVal where
  | float64 (n : Int)
  | intPtr (addr : Nat) (target : Int)
  deriving DecidableEq

/-- Go types of the sharing fixture. -/
inductive PtrType where
  | nil
  | string
  | map
  | float64
  | intPtr
  deriving DecidableEq

/-- `reflect.TypeOf` on the values of the sharing fixture. -/
def ptrTypeOf : Val PtrVal → PtrType
  | .null => .nil
  | .str _ => .string
  | .obj _ => .map
  | .other (.float64 _) => .float64
  | .other (.intPtr _ _) => .intPtr

/-- `json.Marshal` on the scalar values of the sharing fixture; a pointer is
serialised as the integer it points to. -/
def ptrMarshal : Val PtrVal → Except Error String
  | .null => .ok "null"
  | .str s => .ok ("\"" ++ s ++ "\"")
  | .other (.float64 n) => .ok (toString n)
  | .other (.intPtr _ n) => .ok (toString n)
  | .obj _ => .error "json: unsupported value in fixture"

/-- `json.Unmarshal` into a `*int` field that holds a non-nil pointer: the integer
is stored at the address the field holds, so every field that holds this address
shows the new integer. -/
def ptrUnmarshal (data : String) (t : PtrType) (i : Nat) (dv : Record PtrVal) :
    Record PtrVal × Option Error :=
  match t, dv i with
  | .intPtr, .other (.intPtr addr _) =>
    match readInt data.data with
    | some n =>
      (fun x =>
        match dv x with
        | .other (.intPtr a old) =>
          if a = addr then .other (.intPtr a n) else .other (.intPtr a old)
        | v => v, none)
    | none => (dv, some "json: cannot unmarshal into Go value of type int")
  | _, _ => (dv, some "json: unsupported type in fixture")

/-- The entries of the document with `A` 1 and `B` 2. -/
def abEntries : List (String × Val PtrVal) :=
  [("A", .other (.float64 1)), ("B", .other (.float64 2))]

/-- The text of the document with `A` 1 and `B` 2. -/
def abDoc : String := "\x7b\"A\": 1, \"B\": 2\x7d"

/-- The entries of the document with `a` 1 and `b` 2. -/
def abLowerEntries : List (String × Val PtrVal) :=
  [("a", .other (.float64 1)), ("b", .other (.float64 2))]

/-- The text of the document with `a` 1 and `b` 2. -/
def abLowerDoc : String := "\x7b\"a\": 1, \"b\": 2\x7d"

/-- The entries of the document with the single entry `A` 1. -/
def aEntries : List (String × Val PtrVal) := [("A", .other (.float64 1))]

/-- The text of the document with the single entry `A` 1. -/
def aDoc : String := "\x7b\"A\": 1\x7d"

/-- The parser of the sharing fixture as its graph on its three documents. -/
def ptrNewJson (data : String) : Except Error (Val PtrVal) :=
  match mapGet [(abDoc, Val.obj abEntries), (abLowerDoc, Val.obj abLowerEntries),
      (aDoc, Val.obj aEntries)] data with
  | some j => .ok j
  | none => .error "unexpected end of JSON input"

/-- The environment of the sharing fixture. -/
def ptrEnv : GoEnv PtrVal PtrType where
  typeOf := ptrTypeOf
  marshal := ptrMarshal
  unmarshal := ptrUnmarshal
  toLower := fun s => String.mk (s.data.map Char.toLower)
  newJson := ptrNewJson

/-- A record type with three `*int` fields, the last one excluded. -/
def sharedType : List (StructField PtrType) :=
  [{ Name := "A", tag := "", type := .intPtr },
   { Name := "B", tag := "", type := .intPtr },
   { Name := "C", tag := "-", type := .intPtr }]

/-- A record of `sharedType` whose three fields hold the same pointer, to the
integer 0 at address 1. -/
def sharedRecord : Record PtrVal := fun _ => .other (.intPtr 1 0)

/-! ## Maps -/

theorem mapGet_mapSet_self {β : Type} (m : List (String × β)) (k : String) (v : β) :
    mapGet (mapSet m k v) k = some v := by
  induction m with
  | nil => simp [mapSet, mapGet]
  | cons e rest ih =>
    obtain ⟨k1, v1⟩ := e
    by_cases h : k1 = k
    · simp [mapSet, mapGet, h]
    · simp [mapSet, mapGet, h, ih]

theorem mapGet_mapSet_ne {β : Type} (m : List (String × β)) (k x : String) (v : β)
    (hx : x ≠ k) : mapGet (mapSet m k v) x = mapGet m x := by
  have hk : ¬ k = x := fun h => hx h.symm
  induction m with
  | nil => simp [mapSet, mapGet, hk]
  | cons e rest ih =>
    obtain ⟨k1, v1⟩ := e
    by_cases h : k1 = k
    · subst h
      simp [mapSet, mapGet, hk]
    · by_cases h2 : k1 = x
      · subst h2
        simp [mapSet, mapGet, h]
      · simp [mapSet, mapGet, h, h2, ih]

theorem mapSet_of_mapGet {β : Type} (m : List (String × β)) (k : String) (v : β)
    (h : mapGet m k = some v) : mapSet m k v = m := by
  induction m with
  | nil => simp [mapGet] at h
  | cons e rest ih =>
    obtain ⟨k1, v1⟩ := e
    by_cases h1 : k1 = k
    · simp [mapGet, h1] at h
      simp [mapSet, h1, h]
    · simp [mapGet, h1] at h
      simp [mapSet, h1, ih h]

/-! ## The simplejson calls -/

theorem Set_obj {α : Type} (m : List (String × Val α)) (k : String) (v : Val α) :
    (Val.obj m).Set k v = Val.obj (mapSet m k v) := rfl

theorem CheckGet_obj {α : Type} (m : List (String × Val α)) (k : String) :
    (Val.obj m).CheckGet k = mapGet m k := rfl

theorem CheckGet_Set_self {α : Type} (m : List (String × Val α)) (k : String) (v : Val α) :
    ((Val.obj m).Set k v).CheckGet k = some v := by
  simp [Set_obj, CheckGet_obj, mapGet_mapSet_self]

theorem CheckGet_Set_ne {α : Type} (j : Val α) (k x : String) (v : Val α) (hx : x ≠ k) :
    (j.Set k v).CheckGet x = j.CheckGet x := by
  cases j <;> simp [Val.Set, Val.Map, Val.CheckGet, mapGet_mapSet_ne _ _ _ _ hx]

theorem Set_of_CheckGet {α : Type} (j : Val α) (k : String) (v : Val α)
    (h : j.CheckGet k = some v) : j.Set k v = j := by
  cases j <;> simp [Val.CheckGet, Val.Map] at h
  simp [Val.Set, Val.Map, mapSet_of_mapGet _ _ _ h]

theorem Set_of_Map_none {α : Type} (j : Val α) (k : String) (v : Val α)
    (h : j.Map = none) : j.Set k v = j := by
  simp [Val.Set, h]

theorem Map_Set_isSome {α : Type} (j : Val α) (k : String) (v : Val α) :
    (j.Set k v).Map.isSome = j.Map.isSome := by
  cases j <;> simp [Val.Set, Val.Map]

/-! ## The path setter -/

theorem maybeInit_tree {α : Type} (js : JSON α) : js.maybeInit.tree = js.tree := by
  cases js with
  | mk j => cases j <;> rfl

theorem maybeInit_json {α : Type} (js : JSON α) : js.maybeInit.json = some js.tree := by
  cases js with
  | mk j => cases j <;> rfl

theorem Set_args_decompose {α : Type} (args : List (Val α)) (h : 2 ≤ args.length) :
    ∃ path kv v, args = path ++ [kv, v] := by
  induction args using List.reverseRecOn with
  | nil => simp at h
  | append_singleton init v ih =>
    induction init using List.reverseRecOn with
    | nil => simp at h
    | append_singleton path kv _ =>
      exact ⟨path, kv, v, by simp⟩

theorem Set_path_str {α : Type} (js : JSON α) (path : List (Val α)) (key : String)
    (v : Val α) :
    js.Set (path ++ [Val.str key, v])
      = ({ json := some (setLoop key v path js.tree).1 }, (setLoop key v path js.tree).2) := by
  have h1 : (path ++ [Val.str key, v])[path.length + 1]? = some v := by
    rw [List.getElem?_append_right (by omega)]; simp
  have h2 : (path ++ [Val.str key, v])[path.length]? = some (Val.str key) := by
    rw [List.getElem?_append_right (by omega)]; simp
  simp [JSON.Set, h1, h2, maybeInit_tree]

theorem Set_path_nonstr {α : Type} (js : JSON α) (path : List (Val α)) (kv v : Val α)
    (hkv : ∀ s, kv ≠ Val.str s) :
    js.Set (path ++ [kv, v])
      = (js.maybeInit, some "all args except last must be strings") := by
  have h1 : (path ++ [kv, v])[path.length + 1]? = some v := by
    rw [List.getElem?_append_right (by omega)]; simp
  have h2 : (path ++ [kv, v])[path.length]? = some kv := by
    rw [List.getElem?_append_right (by omega)]; simp
  simp only [JSON.Set, List.length_append, List.length_cons, List.length_nil]
  have e1 : path.length + (0 + 1 + 1) - 1 = path.length + 1 := by omega
  have e2 : path.length + (0 + 1 + 1) - 2 = path.length := by omega
  rw [e1, e2, h1, h2]
  have hlt : ¬ path.length + (0 + 1 + 1) < 2 := by omega
  simp only [hlt, if_false]
  cases kv with
  | str s => exact absurd rfl (hkv s)
  | null => rfl
  | obj _ => rfl
  | other _ => rfl

theorem Set_short {α : Type} (js : JSON α) (args : List (Val α)) (h : args.length < 2) :
    js.Set args = (js.maybeInit, some "rs must contain a path and value") := by
  simp [JSON.Set, h]

theorem setLoop_err_iff {α : Type} (key : String) (v : Val α) (path : List (Val α))
    (j : Val α) :
    (setLoop key v path j).2.isSome ↔ ∃ p ∈ path, ∀ s, p ≠ Val.str s := by
  induction path generalizing j with
  | nil => simp [setLoop]
  | cons p ps ih =>
    cases p with
    | str strp =>
      have hstr : ¬ ∀ s, Val.str strp ≠ (Val.str s : Val α) := fun h => h strp rfl
      cases hc : j.CheckGet strp with
      | none => simp [setLoop, hc, ih, hstr]
      | some newj => simp [setLoop, hc, ih, hstr]
    | null => simp [setLoop]
    | obj _ => simp [setLoop]
    | other _ => simp [setLoop]

theorem setLoop_root_frame {α : Type} (key : String) (v : Val α) (path : List (Val α))
    (j : Val α) (x : String) (hx : (path ++ [Val.str key]).head? ≠ some (Val.str x)) :
    (setLoop key v path j).1.CheckGet x = j.CheckGet x := by
  cases path with
  | nil =>
    have : x ≠ key := by
      intro h; subst h; simp at hx
    simp [setLoop, CheckGet_Set_ne _ _ _ _ this]
  | cons p ps =>
    cases p with
    | str strp =>
      have hne : x ≠ strp := by
        intro h; subst h; simp at hx
      cases hc : j.CheckGet strp with
      | none => simp [setLoop, hc, CheckGet_Set_ne _ _ _ _ hne]
      | some newj => simp [setLoop, hc, CheckGet_Set_ne _ _ _ _ hne]
    | null => simp [setLoop]
    | obj _ => simp [setLoop]
    | other _ => simp [setLoop]

theorem Set_root_frame {α : Type} (js : JSON α) (args : List (Val α)) (x : String)
    (hx : args.head? ≠ some (Val.str x)) :
    (js.Set args).1.tree.CheckGet x = js.tree.CheckGet x := by
  by_cases hlen : args.length < 2
  · rw [Set_short js args hlen]
    simp [maybeInit_tree]
  · obtain ⟨path, kv, v, rfl⟩ := Set_args_decompose args (by omega)
    by_cases hkv : ∃ s, kv = Val.str s
    · obtain ⟨key, rfl⟩ := hkv
      rw [Set_path_str]
      simp only [JSON.tree]
      apply setLoop_root_frame
      cases path with
      | nil => simpa using hx
      | cons p ps => simpa using hx
    · rw [Set_path_nonstr js path kv v (fun s h => hkv ⟨s, h⟩)]
      simp [maybeInit_tree]

theorem applySets_root_frame {α : Type} (calls : List (List (Val α))) (js : JSON α)
    (x : String) (hx : ∀ args ∈ calls, args.head? ≠ some (Val.str x)) :
    (applySets js calls).tree.CheckGet x = js.tree.CheckGet x := by
  induction calls generalizing js with
  | nil => rfl
  | cons args rest ih =>
    have h1 := ih (js.Set args).1 (fun a ha => hx a (List.mem_cons_of_mem _ ha))
    have h2 := Set_root_frame js args x (hx args (List.mem_cons_self _ _))
    simp only [applySets, List.foldl_cons] at h1 ⊢
    rw [h1, h2]

/-! ## The key table of `syncToStruct` -/

theorem mapGet_tagmapStep {α τ : Type} (env : GoEnv α τ) (tm : List (String × String))
    (sf : StructField τ) (k : String) :
    mapGet (tagmapStep env tm sf) k
      = if registers env sf k then some sf.Name else mapGet tm k := by
  have key : ∀ k2 : String, mapGet (mapSet (mapSet tm sf.Name sf.Name) k2 sf.Name) k
      = if (k = sf.Name ∨ k = k2) then some sf.Name else mapGet tm k := by
    intro k2
    by_cases h2 : k = k2
    · subst h2
      simp [mapGet_mapSet_self]
    · rw [mapGet_mapSet_ne _ _ _ _ h2]
      by_cases h1 : k = sf.Name
      · subst h1
        simp [mapGet_mapSet_self]
      · rw [mapGet_mapSet_ne _ _ _ _ h1]
        simp [h1, h2]
  unfold tagmapStep registers
  by_cases hx : sf.tag = "-"
  · simp [hx]
  · rw [if_neg hx]
    by_cases ht : sf.tag = ""
    · rw [if_pos ht, key]
      simp only [ne_eq, hx, not_false_eq_true, true_and, if_pos ht]
    · rw [if_neg ht, key]
      simp only [ne_eq, hx, not_false_eq_true, true_and, if_neg ht]

theorem foldl_tagmap_skip {α τ : Type} (env : GoEnv α τ) (dt : List (StructField τ))
    (tm : List (String × String)) (k : String) (h : ∀ g ∈ dt, ¬ registers env g k) :
    mapGet (dt.foldl (tagmapStep env) tm) k = mapGet tm k := by
  induction dt generalizing tm with
  | nil => rfl
  | cons sf rest ih =>
    rw [List.foldl_cons, ih _ (fun g hg => h g (List.mem_cons_of_mem _ hg)),
      mapGet_tagmapStep, if_neg (h sf (List.mem_cons_self _ _))]

theorem foldl_tagmap_last {α τ : Type} (env : GoEnv α τ) (pre post : List (StructField τ))
    (sf : StructField τ) (tm : List (String × String)) (k : String)
    (hsf : registers env sf k) (hpost : ∀ g ∈ post, ¬ registers env g k) :
    mapGet ((pre ++ sf :: post).foldl (tagmapStep env) tm) k = some sf.Name := by
  rw [List.foldl_append, List.foldl_cons, foldl_tagmap_skip env post _ k hpost,
    mapGet_tagmapStep, if_pos hsf]

theorem foldl_tagmap_some {α τ : Type} (env : GoEnv α τ) (dt : List (StructField τ))
    (tm : List (String × String)) (k name : String)
    (h : mapGet (dt.foldl (tagmapStep env) tm) k = some name) :
    (∃ pre sf post, dt = pre ++ sf :: post ∧ registers env sf k ∧ sf.Name = name ∧
        ∀ g ∈ post, ¬ registers env g k) ∨
      (mapGet tm k = some name ∧ ∀ g ∈ dt, ¬ registers env g k) := by
  induction dt using List.reverseRecOn with
  | nil => exact Or.inr ⟨h, by simp⟩
  | append_singleton init sf ih =>
    rw [List.foldl_append, List.foldl_cons, List.foldl_nil, mapGet_tagmapStep] at h
    by_cases hr : registers env sf k
    · rw [if_pos hr] at h
      exact Or.inl ⟨init, sf, [], rfl, hr, Option.some.inj h, by simp⟩
    · rw [if_neg hr] at h
      rcases ih h with ⟨pre, sf0, post, hdt, h0, hn, hp⟩ | ⟨h1, h2⟩
      · refine Or.inl ⟨pre, sf0, post ++ [sf], by simp [hdt], h0, hn, ?_⟩
        intro g hg
        simp only [List.mem_append, List.mem_singleton] at hg
        rcases hg with hg | hg
        · exact hp g hg
        · exact hg ▸ hr
      · refine Or.inr ⟨h1, ?_⟩
        intro g hg
        simp only [List.mem_append, List.mem_singleton] at hg
        rcases hg with hg | hg
        · exact h2 g hg
        · exact hg ▸ hr

theorem registers_effectiveKey {α τ : Type} (env : GoEnv α τ) (sf : StructField τ)
    (h : sf.tag ≠ "-") : registers env sf (effectiveKey sf) := by
  unfold registers effectiveKey
  by_cases ht : sf.tag = "" <;> simp [h, ht]

theorem FieldByName_some {τ : Type} (dt : List (StructField τ)) (name : String) (i : Nat)
    (sf : StructField τ) (h : FieldByName dt name = some (i, sf)) :
    dt[i]? = some sf ∧ sf.Name = name := by
  induction dt generalizing i with
  | nil => simp [FieldByName] at h
  | cons g rest ih =>
    by_cases hg : g.Name = name
    · simp only [FieldByName, hg, if_true, Option.some.injEq, Prod.mk.injEq] at h
      obtain ⟨h1, h2⟩ := h
      subst h1 h2
      exact ⟨by simp, hg⟩
    · simp only [FieldByName, hg, if_false, Option.map_eq_some', Prod.mk.injEq] at h
      obtain ⟨⟨i0, sf0⟩, h0, h1, h2⟩ := h
      simp only at h1 h2
      subst h1 h2
      have := ih i0 h0
      exact ⟨by simpa using this.1, this.2⟩

theorem FieldByName_of_mem {τ : Type} (dt : List (StructField τ)) (sf : StructField τ)
    (h : sf ∈ dt) : ∃ p, FieldByName dt sf.Name = some p := by
  induction dt with
  | nil => simp at h
  | cons g rest ih =>
    by_cases hg : g.Name = sf.Name
    · exact ⟨(0, g), by simp [FieldByName, hg]⟩
    · rcases List.mem_cons.mp h with h1 | h1
      · exact absurd (h1 ▸ rfl) hg
      · obtain ⟨p, hp⟩ := ih h1
        exact ⟨(p.1 + 1, p.2), by simp [FieldByName, hg, hp]⟩

theorem FieldByName_of_nodup {τ : Type} (pre post : List (StructField τ))
    (sf : StructField τ)
    (hnd : ((pre ++ sf :: post).map (fun g => g.Name)).Nodup) :
    FieldByName (pre ++ sf :: post) sf.Name = some (pre.length, sf) := by
  induction pre with
  | nil => simp [FieldByName]
  | cons g rest ih =>
    simp only [List.cons_append, List.map_cons, List.nodup_cons] at hnd
    have hg : ¬ g.Name = sf.Name := by
      intro h
      apply hnd.1
      rw [h]
      exact List.mem_map.mpr ⟨sf, by simp, rfl⟩
    simp [FieldByName, hg, ih hnd.2]

theorem exists_last_registrant {α τ : Type} (env : GoEnv α τ) (dt : List (StructField τ))
    (k : String) (h : ∃ g ∈ dt, registers env g k) :
    ∃ pre sf post, dt = pre ++ sf :: post ∧ registers env sf k ∧
      ∀ g ∈ post, ¬ registers env g k := by
  induction dt using List.reverseRecOn with
  | nil => simp at h
  | append_singleton init last ih =>
    by_cases hl : registers env last k
    · exact ⟨init, last, [], rfl, hl, by simp⟩
    · obtain ⟨g, hg, hr⟩ := h
      simp only [List.mem_append, List.mem_singleton] at hg
      rcases hg with hg | hg
      · obtain ⟨pre, sf, post, he, hr2, hn⟩ := ih ⟨g, hg, hr⟩
        refine ⟨pre, sf, post ++ [last], by simp [he], hr2, ?_⟩
        intro g2 hg2
        simp only [List.mem_append, List.mem_singleton] at hg2
        rcases hg2 with hg2 | hg2
        · exact hn g2 hg2
        · exact hg2 ▸ hl
      · exact absurd (hg ▸ hr) hl

theorem resolve_none_iff {α τ : Type} (env : GoEnv α τ) (dt : List (StructField τ))
    (k : String) : resolve env dt k = none ↔ ∀ g ∈ dt, ¬ registers env g k := by
  unfold resolve buildTagmap
  constructor
  · intro h g hg hr
    obtain ⟨pre, sf, post, he, hr2, hn⟩ := exists_last_registrant env dt k ⟨g, hg, hr⟩
    have hm := foldl_tagmap_last env pre post sf [] k hr2 hn
    rw [← he] at hm
    rw [hm] at h
    simp only at h
    have hmem : sf ∈ dt := by rw [he]; simp
    obtain ⟨q, hq⟩ := FieldByName_of_mem dt sf hmem
    rw [h] at hq
    exact Option.noConfusion hq
  · intro h
    rw [foldl_tagmap_skip env dt [] k h]
    simp [mapGet]

theorem resolve_some {α τ : Type} (env : GoEnv α τ) (dt : List (StructField τ))
    (hnd : (dt.map (fun g => g.Name)).Nodup) (k : String) (i : Nat) (sf : StructField τ)
    (h : resolve env dt k = some (i, sf)) :
    ∃ pre post, dt = pre ++ sf :: post ∧ i = pre.length ∧ registers env sf k ∧
      ∀ g ∈ post, ¬ registers env g k := by
  unfold resolve buildTagmap at h
  cases hm : mapGet (dt.foldl (tagmapStep env) []) k with
  | none => rw [hm] at h; exact Option.noConfusion h
  | some name =>
    rw [hm] at h
    simp only at h
    rcases foldl_tagmap_some env dt [] k name hm with ⟨pre, sf0, post, hdt, hr, hn, hp⟩ | ⟨h1, _⟩
    · subst hdt
      rw [← hn, FieldByName_of_nodup pre post sf0 hnd] at h
      simp only [Option.some.injEq, Prod.mk.injEq] at h
      obtain ⟨h1, h2⟩ := h
      subst h1 h2
      exact ⟨pre, post, rfl, rfl, hr, hp⟩
    · simp [mapGet] at h1

theorem resolve_of_last {α τ : Type} (env : GoEnv α τ) (pre post : List (StructField τ))
    (sf : StructField τ) (hnd : ((pre ++ sf :: post).map (fun g => g.Name)).Nodup)
    (k : String) (hr : registers env sf k) (hp : ∀ g ∈ post, ¬ registers env g k) :
    resolve env (pre ++ sf :: post) k = some (pre.length, sf) := by
  unfold resolve buildTagmap
  rw [foldl_tagmap_last env pre post sf [] k hr hp]
  exact FieldByName_of_nodup pre post sf hnd

/-! ## Record to tree -/

theorem syncFromLoop_append {α τ : Type} (dv : Record α) (a b : List (StructField τ))
    (i : Nat) (j : Val α) :
    syncFromLoop dv (a ++ b) i j = syncFromLoop dv b (i + a.length) (syncFromLoop dv a i j) := by
  induction a generalizing i j with
  | nil => rfl
  | cons sf rest ih =>
    have e : i + (rest.length + 1) = i + 1 + rest.length := by omega
    by_cases hx : sf.tag = "-"
    · simp [syncFromLoop, hx, ih, e]
    · simp [syncFromLoop, hx, ih, e]

theorem syncFromLoop_frame {α τ : Type} (dv : Record α) (dt : List (StructField τ))
    (i : Nat) (j : Val α) (x : String)
    (hx : ∀ g ∈ dt, g.tag ≠ "-" → effectiveKey g ≠ x) :
    (syncFromLoop dv dt i j).CheckGet x = j.CheckGet x := by
  induction dt generalizing i j with
  | nil => rfl
  | cons sf rest ih =>
    have hrest := fun g hg => hx g (List.mem_cons_of_mem _ hg)
    by_cases ht : sf.tag = "-"
    · simp [syncFromLoop, ht, ih _ _ hrest]
    · have hne : x ≠ effectiveKey sf := fun h => hx sf (List.mem_cons_self _ _) ht h.symm
      simp [syncFromLoop, ht, ih _ _ hrest, CheckGet_Set_ne _ _ _ _ hne]

theorem syncFromLoop_obj {α τ : Type} (dv : Record α) (dt : List (StructField τ))
    (i : Nat) (m : List (String × Val α)) :
    ∃ m2, syncFromLoop dv dt i (Val.obj m) = Val.obj m2 := by
  induction dt generalizing i m with
  | nil => exact ⟨m, rfl⟩
  | cons sf rest ih =>
    by_cases ht : sf.tag = "-"
    · simpa [syncFromLoop, ht] using ih (i + 1) m
    · simpa [syncFromLoop, ht, Set_obj] using ih (i + 1) _

theorem syncFromLoop_get {α τ : Type} (dv : Record α) (pre post : List (StructField τ))
    (sf : StructField τ) (i : Nat) (m : List (String × Val α)) (hsf : sf.tag ≠ "-")
    (hpost : ∀ g ∈ post, g.tag ≠ "-" → effectiveKey g ≠ effectiveKey sf) :
    (syncFromLoop dv (pre ++ sf :: post) i (Val.obj m)).CheckGet (effectiveKey sf)
      = some (dv (i + pre.length)) := by
  rw [syncFromLoop_append]
  obtain ⟨m2, hm2⟩ := syncFromLoop_obj dv pre i m
  rw [hm2]
  simp only [syncFromLoop, hsf, if_false]
  rw [syncFromLoop_frame dv post _ _ _ hpost, CheckGet_Set_self]

theorem syncFromLoop_keys {α τ : Type} (dv : Record α) (dt : List (StructField τ))
    (i : Nat) (m : List (String × Val α)) (x : String) :
    ((syncFromLoop dv dt i (Val.obj m)).CheckGet x).isSome = true ↔
      ((mapGet m x).isSome = true ∨ ∃ g ∈ dt, g.tag ≠ "-" ∧ effectiveKey g = x) := by
  induction dt generalizing i m with
  | nil => simp [syncFromLoop, CheckGet_obj]
  | cons sf rest ih =>
    by_cases ht : sf.tag = "-"
    · simp only [syncFromLoop, ht, if_true, ih, List.mem_cons]
      constructor
      · rintro (h | ⟨g, hg, h1, h2⟩)
        · exact Or.inl h
        · exact Or.inr ⟨g, Or.inr hg, h1, h2⟩
      · rintro (h | ⟨g, hg | hg, h1, h2⟩)
        · exact Or.inl h
        · exact absurd (hg ▸ ht) h1
        · exact Or.inr ⟨g, hg, h1, h2⟩
    · simp only [syncFromLoop, ht, if_false, Set_obj, ih, List.mem_cons]
      by_cases hk : x = effectiveKey sf
      · subst hk
        simp only [mapGet_mapSet_self, Option.isSome_some, true_or, true_iff]
        exact Or.inr ⟨sf, Or.inl rfl, ht, rfl⟩
      · rw [mapGet_mapSet_ne _ _ _ _ hk]
        constructor
        · rintro (h | ⟨g, hg, h1, h2⟩)
          · exact Or.inl h
          · exact Or.inr ⟨g, Or.inr hg, h1, h2⟩
        · rintro (h | ⟨g, hg | hg, h1, h2⟩)
          · exact Or.inl h
          · exact absurd (hg ▸ h2).symm hk
          · exact Or.inr ⟨g, hg, h1, h2⟩

/-! ## Tree to record -/

theorem unshared_of_fieldwise {α τ : Type} (env : GoEnv α τ)
    (f : String → τ → Val α → Val α × Option Error) (h : fieldwise env f) (i : Nat) :
    unshared env i := by
  intro data t x dv hx
  rw [h data t x dv]
  exact Function.update_noteq (Ne.symm hx) _ _

theorem assign_direct {α τ : Type} [DecidableEq τ] (env : GoEnv α τ) (dv : Record α)
    (i : Nat) (sf : StructField τ) (v : Val α) (ht : env.typeOf v = sf.type) :
    assign env dv i sf v = (Function.update dv i v, none) := by
  simp [assign, ht]

theorem assign_other {α τ : Type} [DecidableEq τ] (env : GoEnv α τ) (dv : Record α)
    (i x : Nat) (sf : StructField τ) (v : Val α) (hx : x ≠ i) (hun : unshared env x) :
    (assign env dv i sf v).1 x = dv x := by
  unfold assign
  by_cases ht : env.typeOf v = sf.type
  · simp [ht, Function.update_noteq hx]
  · cases hm : env.marshal v with
    | error err => simp [ht]
    | ok marsh =>
      simp only [ht, if_false]
      exact hun marsh sf.type i dv (Ne.symm hx)

theorem syncEntry_frame {α τ : Type} [DecidableEq τ] (env : GoEnv α τ)
    (dt : List (StructField τ)) (dv : Record α) (k : String) (v : Val α) (i : Nat)
    (h : routedTo env dt i (k, v) = false) (hun : unshared env i) :
    (syncEntry env dt dv k v).1 i = dv i := by
  unfold syncEntry
  unfold routedTo at h
  cases hr : resolve env dt k with
  | none => rfl
  | some p =>
    obtain ⟨j, sf⟩ := p
    rw [hr] at h
    simp only [decide_eq_false_iff_not] at h
    exact assign_other env dv j i sf v (fun e => h e.symm) hun

theorem syncLoop_cons_ok {α τ : Type} [DecidableEq τ] (env : GoEnv α τ)
    (dt : List (StructField τ)) (dv : Record α) (k : String) (v : Val α)
    (rest : List (String × Val α)) (h : (syncEntry env dt dv k v).2 = none) :
    syncLoop env dt ((k, v) :: rest) dv = syncLoop env dt rest (syncEntry env dt dv k v).1 := by
  rcases he : syncEntry env dt dv k v with ⟨dv1, _ | err⟩
  · simp [syncLoop, he]
  · rw [he] at h; exact Option.noConfusion h

theorem syncLoop_cons_err {α τ : Type} [DecidableEq τ] (env : GoEnv α τ)
    (dt : List (StructField τ)) (dv : Record α) (k : String) (v : Val α)
    (rest : List (String × Val α)) (h : (syncEntry env dt dv k v).2 ≠ none) :
    syncLoop env dt ((k, v) :: rest) dv = syncEntry env dt dv k v := by
  rcases he : syncEntry env dt dv k v with ⟨dv1, _ | err⟩
  · rw [he] at h; exact absurd rfl h
  · simp [syncLoop, he]

theorem syncLoop_frame_of {α τ : Type} [DecidableEq τ] (env : GoEnv α τ)
    (dt : List (StructField τ)) (order : List (String × Val α)) (dv : Record α) (i : Nat)
    (h : order.filter (routedTo env dt i) = [])
    (hfr : ∀ e ∈ order, routedTo env dt i e = false →
      ∀ dv2, (syncEntry env dt dv2 e.1 e.2).1 i = dv2 i) :
    (syncLoop env dt order dv).1 i = dv i := by
  induction order generalizing dv with
  | nil => rfl
  | cons e rest ih =>
    obtain ⟨k, v⟩ := e
    have hk : routedTo env dt i (k, v) = false := by
      by_contra hc
      simp only [Bool.not_eq_false] at hc
      simp [List.filter_cons, hc] at h
    have hrest : rest.filter (routedTo env dt i) = [] := by
      simpa [List.filter_cons, hk] using h
    have hfr2 := fun e he => hfr e (List.mem_cons_of_mem _ he)
    have hhead := hfr (k, v) (List.mem_cons_self _ _) hk dv
    by_cases he : (syncEntry env dt dv k v).2 = none
    · rw [syncLoop_cons_ok env dt dv k v rest he, ih _ hrest hfr2]
      exact hhead
    · rw [syncLoop_cons_err env dt dv k v rest he]
      exact hhead

theorem syncLoop_frame {α τ : Type} [DecidableEq τ] (env : GoEnv α τ)
    (dt : List (StructField τ)) (order : List (String × Val α)) (dv : Record α) (i : Nat)
    (h : order.filter (routedTo env dt i) = []) (hun : unshared env i) :
    (syncLoop env dt order dv).1 i = dv i :=
  syncLoop_frame_of env dt order dv i h
    (fun e _ he dv2 => syncEntry_frame env dt dv2 e.1 e.2 i he hun)

theorem syncLoop_single_of {α τ : Type} [DecidableEq τ] (env : GoEnv α τ)
    (dt : List (StructField τ)) (order : List (String × Val α)) (dv : Record α) (i : Nat)
    (sf : StructField τ) (k : String) (v : Val α)
    (hone : order.filter (routedTo env dt i) = [(k, v)])
    (hres : resolve env dt k = some (i, sf))
    (hok : (syncLoop env dt order dv).2 = none)
    (hfr : ∀ e ∈ order, routedTo env dt i e = false →
      ∀ dv2, (syncEntry env dt dv2 e.1 e.2).1 i = dv2 i) :
    ∃ dv2, dv2 i = dv i ∧ (assign env dv2 i sf v).2 = none ∧
      (syncLoop env dt order dv).1 i = (assign env dv2 i sf v).1 i := by
  induction order generalizing dv with
  | nil => simp at hone
  | cons e rest ih =>
    obtain ⟨k1, v1⟩ := e
    have he : (syncEntry env dt dv k1 v1).2 = none := by
      by_contra hc
      rw [syncLoop_cons_err env dt dv k1 v1 rest hc] at hok
      exact hc hok
    have hfr2 := fun e he => hfr e (List.mem_cons_of_mem _ he)
    rw [syncLoop_cons_ok env dt dv k1 v1 rest he] at hok ⊢
    by_cases hk : routedTo env dt i (k1, v1) = true
    · simp only [List.filter_cons, hk, if_true, List.cons.injEq, Prod.mk.injEq] at hone
      obtain ⟨⟨h1, h2⟩, hrest⟩ := hone
      subst h1 h2
      rw [syncLoop_frame_of env dt rest _ i hrest hfr2]
      have hs : syncEntry env dt dv k1 v1 = assign env dv i sf v1 := by
        simp [syncEntry, hres]
      rw [hs] at he ⊢
      exact ⟨dv, rfl, he, rfl⟩
    · simp only [Bool.not_eq_true] at hk
      have hrest : rest.filter (routedTo env dt i) = [(k, v)] := by
        simpa [List.filter_cons, hk] using hone
      obtain ⟨dv2, h1, h2, h3⟩ := ih (syncEntry env dt dv k1 v1).1 hrest hok hfr2
      exact ⟨dv2, h1.trans (hfr (k1, v1) (List.mem_cons_self _ _) hk dv), h2, h3⟩

theorem assign_fieldwise_ok {α τ : Type} [DecidableEq τ] (env : GoEnv α τ)
    (f : String → τ → Val α → Val α × Option Error) (hfw : fieldwise env f)
    (dv : Record α) (i : Nat) (sf : StructField τ) (v : Val α)
    (h : (assign env dv i sf v).2 = none) :
    (env.typeOf v = sf.type ∧ (assign env dv i sf v).1 i = v) ∨
      (env.typeOf v ≠ sf.type ∧ ∃ marsh, env.marshal v = .ok marsh ∧
        f marsh sf.type (dv i) = ((assign env dv i sf v).1 i, none)) := by
  unfold assign at h ⊢
  by_cases ht : env.typeOf v = sf.type
  · exact Or.inl ⟨ht, by simp [ht]⟩
  · refine Or.inr ⟨ht, ?_⟩
    cases hm : env.marshal v with
    | error err => simp [ht, hm] at h
    | ok marsh =>
      refine ⟨marsh, rfl, ?_⟩
      simp only [ht, hm, if_false, hfw marsh sf.type i dv] at h
      simp only [ht, if_false, hfw marsh sf.type i dv, Function.update_same]
      exact Prod.ext rfl h

theorem syncLoop_single {α τ : Type} [DecidableEq τ] (env : GoEnv α τ)
    (f : String → τ → Val α → Val α × Option Error) (hfw : fieldwise env f)
    (dt : List (StructField τ)) (order : List (String × Val α)) (dv : Record α) (i : Nat)
    (sf : StructField τ) (k : String) (v : Val α)
    (hone : order.filter (routedTo env dt i) = [(k, v)])
    (hres : resolve env dt k = some (i, sf))
    (hok : (syncLoop env dt order dv).2 = none) :
    (env.typeOf v = sf.type ∧ (syncLoop env dt order dv).1 i = v) ∨
      (env.typeOf v ≠ sf.type ∧ ∃ marsh, env.marshal v = .ok marsh ∧
        f marsh sf.type (dv i) = ((syncLoop env dt order dv).1 i, none)) := by
  obtain ⟨dv2, h1, h2, h3⟩ := syncLoop_single_of env dt order dv i sf k v hone hres hok
    (fun e _ he dv3 => syncEntry_frame env dt dv3 e.1 e.2 i he
      (unshared_of_fieldwise env f hfw i))
  rw [h3, ← h1]
  exact assign_fieldwise_ok env f hfw dv2 i sf v h2

theorem getElem_decompose {β : Type} (l : List β) (i : Nat) (x : β) (h : l[i]? = some x) :
    ∃ pre post, l = pre ++ x :: post ∧ pre.length = i := by
  induction l generalizing i with
  | nil => simp at h
  | cons a rest ih =>
    cases i with
    | zero =>
      simp only [List.getElem?_cons_zero, Option.some.injEq] at h
      exact ⟨[], rest, by simp [h], rfl⟩
    | succ n =>
      simp only [List.getElem?_cons_succ] at h
      obtain ⟨pre, post, he, hl⟩ := ih n h
      exact ⟨a :: pre, post, by simp [he], by simp [hl]⟩

theorem UnmarshalJSON_tree {α τ : Type} [DecidableEq τ] (env : GoEnv α τ)
    (dt : List (StructField τ)) (js : JSON α) (dv : Record α) (data : String)
    (order : List (String × Val α)) (j : Val α) (hdoc : env.newJson data = .ok j) :
    (js.UnmarshalJSON env dt dv data order).1 = { json := some j } := by
  simp [JSON.UnmarshalJSON, hdoc]

theorem MarshalJSON_tree {α τ : Type} (env : GoEnv α τ) (dt : List (StructField τ))
    (js : JSON α) (dv : Record α) :
    (js.MarshalJSON env dt dv).1.tree = syncFromLoop dv dt 0 js.tree := by
  simp [JSON.MarshalJSON, JSON.tree, syncFromStruct, maybeInit_json]

theorem not_effectiveKey_of_resolve_none {α τ : Type} (env : GoEnv α τ)
    (dt : List (StructField τ)) (k : String) (h : resolve env dt k = none) :
    ∀ g ∈ dt, g.tag ≠ "-" → effectiveKey g ≠ k := by
  intro g hg ht he
  exact (resolve_none_iff env dt k).mp h g hg (he ▸ registers_effectiveKey env g ht)

/-! ## The path setter on a path that meets only maps -/

theorem Get_Set_self {α : Type} (m : List (String × Val α)) (k : String) (v : Val α) :
    ((Val.obj m).Set k v).Get k = v := by
  simp [Val.Get, CheckGet_Set_self]

theorem Map_isSome_obj {α : Type} (j : Val α) (h : j.Map.isSome = true) :
    ∃ m, j = Val.obj m := by
  cases j <;> simp [Val.Map] at h
  exact ⟨_, rfl⟩

theorem pathClear_empty {α : Type} (ps : List String) : pathClear (Val.obj ([] : List (String × Val α))) ps := by
  cases ps with
  | nil => simp [pathClear, Val.Map]
  | cons p ps => simp [pathClear, Val.Map, Val.CheckGet, mapGet]

theorem setLoop_post {α : Type} (key : String) (v : Val α) (path : List String)
    (j : Val α) (h : pathClear j path) :
    (setLoop key v (path.map Val.str) j).2 = none ∧
      (walk (setLoop key v (path.map Val.str) j).1 path).CheckGet key = some v := by
  induction path generalizing j with
  | nil =>
    obtain ⟨m, rfl⟩ := Map_isSome_obj j h
    simp [setLoop, walk, CheckGet_Set_self]
  | cons p ps ih =>
    obtain ⟨hm, hc⟩ := h
    obtain ⟨m, rfl⟩ := Map_isSome_obj j hm
    cases hg : (Val.obj m).CheckGet p with
    | none =>
      have := ih (Val.obj []) (pathClear_empty ps)
      have e1 : ((Val.obj m).Set p (Val.obj [])).Get p = Val.obj [] := Get_Set_self m p _
      simp only [List.map_cons, setLoop, hg, walk, e1]
      rw [Set_obj, Get_Set_self]
      exact this
    | some c =>
      rw [hg] at hc
      have := ih c hc
      simp only [List.map_cons, setLoop, hg, walk, Get_Set_self]
      exact this

theorem setLoop_nonmap {α : Type} (key : String) (v : Val α) (path : List (Val α))
    (j : Val α) (h : j.Map = none) : (setLoop key v path j).1 = j := by
  cases path with
  | nil => simp [setLoop, Set_of_Map_none _ _ _ h]
  | cons p ps =>
    have hc : ∀ s, j.CheckGet s = none := by
      intro s; simp [Val.CheckGet, h]
    cases p with
    | str strp => simp [setLoop, hc, Set_of_Map_none _ _ _ h]
    | null => simp [setLoop]
    | obj _ => simp [setLoop]
    | other _ => simp [setLoop]

theorem walk_null {α : Type} (q : List String) : walk (Val.null : Val α) q = Val.null := by
  induction q with
  | nil => rfl
  | cons p ps ih => simpa [walk, Val.Get, Val.CheckGet, Val.Map] using ih

theorem walk_empty_CheckGet {α : Type} (q : List String) (x : String) :
    (walk (Val.obj ([] : List (String × Val α))) q).CheckGet x = none := by
  cases q with
  | nil => simp [walk, Val.CheckGet, Val.Map, mapGet]
  | cons p ps =>
    have : (Val.obj ([] : List (String × Val α))).Get p = Val.null := by
      simp [Val.Get, Val.CheckGet, Val.Map, mapGet]
    simp [walk, this, walk_null, Val.CheckGet, Val.Map]

theorem setLoop_deep_frame {α : Type} (key : String) (v : Val α) (q : List String)
    (rest : List (Val α)) (j : Val α) (x : String)
    (hx : (rest ++ [Val.str key]).head? ≠ some (Val.str x)) :
    (walk (setLoop key v (q.map Val.str ++ rest) j).1 q).CheckGet x
      = (walk j q).CheckGet x := by
  induction q generalizing j with
  | nil => exact setLoop_root_frame key v rest j x hx
  | cons p qs ih =>
    cases hm : j.Map with
    | none => rw [setLoop_nonmap key v _ j hm]
    | some m =>
      have hj : j = Val.obj m := by
        cases j <;> simp [Val.Map] at hm
        rw [hm]
      subst hj
      cases hg : (Val.obj m).CheckGet p with
      | none =>
        have e1 : ((Val.obj m).Set p (Val.obj [])).Get p = Val.obj [] := Get_Set_self m p _
        have e2 : (Val.obj m).Get p = Val.null := by simp [Val.Get, hg]
        simp only [List.map_cons, List.cons_append, setLoop, hg, walk, e1, e2]
        rw [Set_obj, Get_Set_self]
        have h1 := ih (Val.obj [])
        rw [walk_empty_CheckGet] at h1
        have e3 : (walk (Val.null : Val α) qs).CheckGet x = none := by
          rw [walk_null]; simp [Val.CheckGet, Val.Map]
        rw [e3]
        exact h1
      | some c =>
        have e2 : (Val.obj m).Get p = c := by simp [Val.Get, hg]
        simp only [List.map_cons, List.cons_append, setLoop, hg, walk, e2, Get_Set_self]
        exact ih c

theorem setLoop_pathClear {α : Type} (key : String) (v : Val α) (path : List String)
    (j : Val α) (h : pathClear j path) :
    pathClear (setLoop key v (path.map Val.str) j).1 path := by
  induction path generalizing j with
  | nil =>
    obtain ⟨m, rfl⟩ := Map_isSome_obj j h
    simp [setLoop, pathClear, Set_obj, Val.Map]
  | cons p ps ih =>
    obtain ⟨hm, hc⟩ := h
    obtain ⟨m, rfl⟩ := Map_isSome_obj j hm
    cases hg : (Val.obj m).CheckGet p with
    | none =>
      have e1 : ((Val.obj m).Set p (Val.obj [])).Get p = Val.obj [] := Get_Set_self m p _
      simp only [List.map_cons, setLoop, hg, e1]
      rw [Set_obj]
      refine ⟨by simp [Set_obj, Val.Map], ?_⟩
      rw [CheckGet_Set_self]
      exact ih _ (pathClear_empty ps)
    | some c =>
      rw [hg] at hc
      simp only [List.map_cons, setLoop, hg]
      refine ⟨by simp [Set_obj, Val.Map], ?_⟩
      rw [CheckGet_Set_self]
      exact ih c hc

/-- The postcondition of the path setter where it holds: when the cursor meets only
maps along the segments, `Set(p1, ..., pn, k, v)` returns no error and walking
`p1, ..., pn` from the root afterwards reaches an object whose key `k` holds `v`. -/
theorem Set_post_of_pathClear {α : Type} (js : JSON α) (path : List String) (key : String)
    (v : Val α) (h : pathClear js.tree path) :
    (js.Set (path.map Val.str ++ [Val.str key, v])).2 = none ∧
      (walk (js.Set (path.map Val.str ++ [Val.str key, v])).1.tree path).CheckGet key
        = some v := by
  rw [Set_path_str]
  exact setLoop_post key v path js.tree h

/-- The frame of the path setter: whatever the tree holds, after
`Set(p1, ..., pn, k, v)` every object reached by walking a leading part of the
segments holds at every key other than the next segment (or `k` at the end) what the
corresponding object held before. -/
theorem Set_deep_frame {α : Type} (js : JSON α) (q rest : List String) (key : String)
    (v : Val α) (x : String) (hx : (rest ++ [key]).head? ≠ some x) :
    (walk (js.Set ((q ++ rest).map Val.str ++ [Val.str key, v])).1.tree q).CheckGet x
      = (walk js.tree q).CheckGet x := by
  rw [Set_path_str, List.map_append]
  apply setLoop_deep_frame
  cases rest with
  | nil => simpa using hx
  | cons r rs => simpa using hx

/-- Two calls on the same path: when the cursor meets only maps along the segments
and `c`, `d` are distinct, `Set(p.., c, x)` then `Set(p.., d, y)` return no error and
the object reached by the segments holds both `c: x` and `d: y`. -/
theorem Set_twice_of_pathClear {α : Type} (js : JSON α) (path : List String)
    (c d : String) (x y : Val α) (hcd : c ≠ d) (h : pathClear js.tree path) :
    (js.Set (path.map Val.str ++ [Val.str c, x])).2 = none ∧
    ((js.Set (path.map Val.str ++ [Val.str c, x])).1.Set
        (path.map Val.str ++ [Val.str d, y])).2 = none ∧
    (walk ((js.Set (path.map Val.str ++ [Val.str c, x])).1.Set
        (path.map Val.str ++ [Val.str d, y])).1.tree path).CheckGet c = some x ∧
    (walk ((js.Set (path.map Val.str ++ [Val.str c, x])).1.Set
        (path.map Val.str ++ [Val.str d, y])).1.tree path).CheckGet d = some y := by
  have h1 := Set_post_of_pathClear js path c x h
  have hclear : pathClear (js.Set (path.map Val.str ++ [Val.str c, x])).1.tree path := by
    rw [Set_path_str]
    exact setLoop_pathClear c x path js.tree h
  have h2 := Set_post_of_pathClear _ path d y hclear
  have h3 := Set_deep_frame (js.Set (path.map Val.str ++ [Val.str c, x])).1 path [] d y c
    (by simpa using hcd.symm)
  simp only [List.append_nil] at h3
  exact ⟨h1.1, h2.1, by rw [h3]; exact h1.2, h2.2⟩

/-! ## The claims -/

/-- C1. Round-trip preservation: a root key of the document that the key table of
decode routes to no field still holds its document value in the tree that encode
serialises, whatever the record holds at encode time and whatever `Set` calls were
made in between, as long as none of them starts at that key. -/
theorem roundtrip_preserves_unmapped_key {α τ : Type} [DecidableEq τ] (env : GoEnv α τ)
    (dt : List (StructField τ)) (js : JSON α) (dv dv2 : Record α) (data : String)
    (order m : List (String × Val α)) (calls : List (List (Val α))) (k : String)
    (val : Val α)
    (hdoc : env.newJson data = .ok (Val.obj m))
    (hkey : mapGet m k = some val)
    (hres : resolve env dt k = none)
    (hcalls : ∀ args ∈ calls, args.head? ≠ some (Val.str k)) :
    ((applySets (js.UnmarshalJSON env dt dv data order).1 calls).MarshalJSON env dt dv2).1.tree.CheckGet k
      = some val := by
  rw [MarshalJSON_tree, syncFromLoop_frame _ _ _ _ _ (not_effectiveKey_of_resolve_none env dt k hres),
    applySets_root_frame calls _ k hcalls, UnmarshalJSON_tree env dt js dv data order _ hdoc]
  exact hkey

set_option maxRecDepth 100000 in
/-- Witness for C1 on the fixture: `Extra` survives decode, `Set("age_printed", ...)`
and encode of another record. -/
theorem roundtrip_preserves_unmapped_key_witness :
    (goEnv fixtureDocs).newJson jsondata = .ok (Val.obj jsondataEntries) ∧
    mapGet jsondataEntries "Extra" = some (Val.obj [("foo", Val.str "bar")]) ∧
    resolve (goEnv fixtureDocs) personType "Extra" = none ∧
    ((applySets (JSON.UnmarshalJSON (goEnv fixtureDocs) personType ⟨none⟩ personZero jsondata
        jsondataEntries).1 [[Val.str "age_printed", Val.str "forty-three"]]).MarshalJSON
        (goEnv fixtureDocs) personType personEncode).1.tree.CheckGet "Extra"
      = some (Val.obj [("foo", Val.str "bar")]) :=
  ⟨rfl, rfl, rfl,
    roundtrip_preserves_unmapped_key (goEnv fixtureDocs) personType ⟨none⟩ personZero
      personEncode jsondata jsondataEntries jsondataEntries
      [[Val.str "age_printed", Val.str "forty-three"]] "Extra"
      (Val.obj [("foo", Val.str "bar")]) rfl rfl rfl
      (by
        intro args hargs
        simp only [List.mem_singleton] at hargs
        subst hargs
        simp)⟩

theorem later_effectiveKey_ne {α τ : Type} (env : GoEnv α τ) (post : List (StructField τ))
    (k : String) (hp : ∀ g ∈ post, ¬ registers env g k) :
    ∀ g ∈ post, g.tag ≠ "-" → effectiveKey g ≠ k := by
  intro g hg ht he
  exact hp g hg (he ▸ registers_effectiveKey env g ht)

theorem registers_not_excluded {α τ : Type} (env : GoEnv α τ) (sf : StructField τ)
    (k : String) (h : registers env sf k) : sf.tag ≠ "-" := h.1

set_option maxRecDepth 100000 in
/-- C2, counterexample. In the fixture the document key `address` is routed to the
field `Address` (lowercase fallback); after decode, the mutation of `Address` to
`742 Evergreen Terrace` and encode, the tree still holds the document value at
`address`, not the current value of the field. -/
theorem field_precedence_counterexample :
    mapGet jsondataEntries "address" = some (Val.str "123 Fake St.") ∧
    resolve (goEnv fixtureDocs) personType "address"
      = some (3, { Name := "Address", tag := "", type := GoType.string }) ∧
    (JSON.UnmarshalJSON (goEnv fixtureDocs) personType ⟨none⟩ personZero jsondata
      jsondataEntries).2.2 = none ∧
    personEncode 3 = Val.str "742 Evergreen Terrace" ∧
    ((JSON.UnmarshalJSON (goEnv fixtureDocs) personType ⟨none⟩ personZero jsondata
        jsondataEntries).1.MarshalJSON (goEnv fixtureDocs) personType personEncode).1.tree.CheckGet
        "address" = some (Val.str "123 Fake St.") ∧
    ((JSON.UnmarshalJSON (goEnv fixtureDocs) personType ⟨none⟩ personZero jsondata
        jsondataEntries).1.MarshalJSON (goEnv fixtureDocs) personType personEncode).1.tree.CheckGet
        "address" ≠ some (personEncode 3) := by
  refine ⟨rfl, rfl, rfl, rfl, rfl, ?_⟩
  intro h
  have h2 : some (Val.str "123 Fake St." : Val GoVal) = some (Val.str "742 Evergreen Terrace") := h
  simp only [Option.some.injEq, Val.str.injEq] at h2
  exact absurd h2 (by decide)

/-- C2, amended. A document key that decode routes to a field and that is that
field's effective key (its tag, or its identifier when it has no tag) holds, after
decode, any mutation of the record and encode, the record's current value of the
field, whatever the document held there. -/
theorem field_precedence_on_effective_key {α τ : Type} [DecidableEq τ] (env : GoEnv α τ)
    (dt : List (StructField τ)) (js : JSON α) (dv dv2 : Record α) (data : String)
    (order m : List (String × Val α)) (k : String) (i : Nat) (sf : StructField τ)
    (hnd : (dt.map (fun g => g.Name)).Nodup)
    (hdoc : env.newJson data = .ok (Val.obj m))
    (hres : resolve env dt k = some (i, sf))
    (heff : effectiveKey sf = k) :
    ((js.UnmarshalJSON env dt dv data order).1.MarshalJSON env dt dv2).1.tree.CheckGet k
      = some (dv2 i) := by
  obtain ⟨pre, post, hdt, hi, hr, hp⟩ := resolve_some env dt hnd k i sf hres
  rw [MarshalJSON_tree, UnmarshalJSON_tree env dt js dv data order _ hdoc]
  subst hdt hi heff
  have := syncFromLoop_get dv2 pre post sf 0 m (registers_not_excluded env sf _ hr)
    (later_effectiveKey_ne env post _ hp)
  simpa [JSON.tree] using this

set_option maxRecDepth 100000 in
/-- Witness for C2 (amended) on the fixture: the key `age` of the document and the
field `Age`. -/
theorem field_precedence_on_effective_key_witness :
    (personType.map (fun g => g.Name)).Nodup ∧
    (goEnv fixtureDocs).newJson jsondata = .ok (Val.obj jsondataEntries) ∧
    resolve (goEnv fixtureDocs) personType "age"
      = some (2, { Name := "Age", tag := "age", type := GoType.int }) ∧
    ((JSON.UnmarshalJSON (goEnv fixtureDocs) personType ⟨none⟩ personZero jsondata
        jsondataEntries).1.MarshalJSON (goEnv fixtureDocs) personType personEncode).1.tree.CheckGet
        "age" = some (personEncode 2) :=
  ⟨by decide, rfl, rfl,
    field_precedence_on_effective_key (goEnv fixtureDocs) personType ⟨none⟩ personZero
      personEncode jsondata jsondataEntries jsondataEntries "age" 2
      { Name := "Age", tag := "age", type := GoType.int } (by decide) rfl rfl rfl⟩

theorem syncFromLoop_get_distinct {α τ : Type} (dt : List (StructField τ))
    (dv : Record α) (m : List (String × Val α)) (i : Nat) (sf : StructField τ)
    (hdist : ((dt.filter (fun g => decide (g.tag ≠ "-"))).map effectiveKey).Nodup)
    (hi : dt[i]? = some sf) (hsf : sf.tag ≠ "-") :
    (syncFromLoop dv dt 0 (Val.obj m)).CheckGet (effectiveKey sf) = some (dv i) := by
  obtain ⟨pre, post, hdt, hlen⟩ := getElem_decompose dt i sf hi
  subst hdt hlen
  have hpost : ∀ g ∈ post, g.tag ≠ "-" → effectiveKey g ≠ effectiveKey sf := by
    intro g hg ht he
    simp only [List.filter_append, List.filter_cons, hsf, ne_eq, not_false_eq_true,
      decide_True, if_true, List.map_append, List.map_cons] at hdist
    have h2 := (List.nodup_append.mp hdist).2.1
    simp only [List.nodup_cons] at h2
    apply h2.1
    rw [← he]
    exact List.mem_map.mpr ⟨g, List.mem_filter.mpr ⟨hg, by simpa using ht⟩, rfl⟩
  have := syncFromLoop_get dv pre post sf 0 m hsf hpost
  simpa using this

/-- C3. Record-to-tree sync on an object tree: when the non-excluded fields have
pairwise distinct effective keys, every non-excluded field's current value is in the
tree afterwards under its tag if it has one and under its identifier verbatim
otherwise. -/
theorem syncFromStruct_writes_effective_keys {α τ : Type} (dt : List (StructField τ))
    (dv : Record α) (m : List (String × Val α)) (i : Nat) (sf : StructField τ)
    (hdist : ((dt.filter (fun g => decide (g.tag ≠ "-"))).map effectiveKey).Nodup)
    (hi : dt[i]? = some sf) (hsf : sf.tag ≠ "-") :
    (syncFromStruct dt dv (Val.obj m)).CheckGet (if sf.tag = "" then sf.Name else sf.tag)
      = some (dv i) := by
  have := syncFromLoop_get_distinct dt dv m i sf hdist hi hsf
  simpa [syncFromStruct, effectiveKey] using this

/-- Witness for C3 on the fixture: `Address` is written under `Address`. -/
theorem syncFromStruct_writes_effective_keys_witness :
    ((personType.filter (fun g => decide (g.tag ≠ "-"))).map effectiveKey).Nodup ∧
    (syncFromStruct personType personEncode (Val.obj jsondataEntries)).CheckGet "Address"
      = some (Val.str "742 Evergreen Terrace") :=
  ⟨by decide,
    syncFromStruct_writes_effective_keys personType personEncode jsondataEntries 3
      { Name := "Address", tag := "", type := GoType.string } (by decide) rfl (by decide)⟩

theorem UnmarshalJSON_record {α τ : Type} [DecidableEq τ] (env : GoEnv α τ)
    (dt : List (StructField τ)) (js : JSON α) (dv : Record α) (data : String)
    (order m : List (String × Val α)) (hdoc : env.newJson data = .ok (Val.obj m)) :
    (js.UnmarshalJSON env dt dv data order).2 = syncLoop env dt order dv := by
  simp [JSON.UnmarshalJSON, hdoc, syncToStruct, Val.Map]

theorem filter_single_of_perm {β : Type} (p : β → Bool) (order m : List β) (x : β)
    (hperm : order.Perm m) (hone : m.filter p = [x]) : order.filter p = [x] := by
  have := hperm.filter p
  rw [hone] at this
  exact List.perm_singleton.mp this

/-- C4, counterexample. In the sharing fixture the fields `A` and `B` hold the same
pointer. Decoding the document with `A` 1 and `B` 2, visited in that order, succeeds;
exactly one root entry is routed to `A`, and decoding its value into `A` stores 1
behind the pointer, yet after decode `A` points to 2: decoding `B` wrote through the
shared pointer. -/
theorem decode_assigns_counterexample :
    ptrEnv.newJson abDoc = .ok (Val.obj abEntries) ∧
    (JSON.UnmarshalJSON ptrEnv sharedType ⟨none⟩ sharedRecord abDoc abEntries).2.2 = none ∧
    abEntries.filter (routedTo ptrEnv sharedType 0) = [("A", Val.other (PtrVal.float64 1))] ∧
    resolve ptrEnv sharedType "A"
      = some (0, { Name := "A", tag := "", type := PtrType.intPtr }) ∧
    ptrEnv.typeOf (Val.other (PtrVal.float64 1)) ≠ PtrType.intPtr ∧
    ptrEnv.marshal (Val.other (PtrVal.float64 1)) = .ok "1" ∧
    (ptrEnv.unmarshal "1" PtrType.intPtr 0 sharedRecord).1 0
      = Val.other (PtrVal.intPtr 1 1) ∧
    (JSON.UnmarshalJSON ptrEnv sharedType ⟨none⟩ sharedRecord abDoc abEntries).2.1 0
      = Val.other (PtrVal.intPtr 1 2) ∧
    (JSON.UnmarshalJSON ptrEnv sharedType ⟨none⟩ sharedRecord abDoc abEntries).2.1 0
      ≠ Val.other (PtrVal.intPtr 1 1) := by
  refine ⟨rfl, rfl, rfl, rfl, by decide, rfl, rfl, rfl, ?_⟩
  intro h
  have h2 : (Val.other (PtrVal.intPtr 1 2) : Val PtrVal) = Val.other (PtrVal.intPtr 1 1) := h
  simp only [Val.other.injEq] at h2
  exact absurd h2 (by decide)

/-- C4, amended. Tree-to-record sync on a record in which no two fields share a map
or pointer (`json.Unmarshal` into a field changes that field only, leaving there
what `f` gives): when decode of an object-rooted document succeeds, a field to which
exactly one root entry is routed holds that entry's value as it is if the value's
dynamic type is the field type, and otherwise the result of marshalling the value
and unmarshalling the bytes into the field. -/
theorem decode_assigns_document_value {α τ : Type} [DecidableEq τ] (env : GoEnv α τ)
    (f : String → τ → Val α → Val α × Option Error)
    (dt : List (StructField τ)) (js : JSON α) (dv : Record α) (data : String)
    (order m : List (String × Val α)) (i : Nat) (sf : StructField τ) (k : String)
    (v : Val α)
    (hfw : fieldwise env f)
    (hdoc : env.newJson data = .ok (Val.obj m))
    (hperm : order.Perm m)
    (hok : (js.UnmarshalJSON env dt dv data order).2.2 = none)
    (hone : m.filter (routedTo env dt i) = [(k, v)])
    (hres : resolve env dt k = some (i, sf)) :
    (env.typeOf v = sf.type ∧ (js.UnmarshalJSON env dt dv data order).2.1 i = v) ∨
      (env.typeOf v ≠ sf.type ∧ ∃ marsh, env.marshal v = .ok marsh ∧
        f marsh sf.type (dv i)
          = ((js.UnmarshalJSON env dt dv data order).2.1 i, none)) := by
  rw [UnmarshalJSON_record env dt js dv data order m hdoc] at hok ⊢
  exact syncLoop_single env f hfw dt order dv i sf k v
    (filter_single_of_perm _ order m _ hperm hone) hres hok

set_option maxRecDepth 100000 in
/-- Witness for C4 (amended) on the fixture (`TestDecode`): visiting the root entries
in reverse, the number 42 under `age` goes through marshal and unmarshal into the
`int` field `Age`, which then holds 42; the string under `name` has the type of the
field `Name` and is assigned as it is. -/
theorem decode_assigns_document_value_witness :
    (fieldwise (goEnv fixtureDocs) goUnmarshal ∧
      (goEnv fixtureDocs).newJson jsondata = .ok (Val.obj jsondataEntries) ∧
      jsondataEntries.reverse.Perm jsondataEntries ∧
      (JSON.UnmarshalJSON (goEnv fixtureDocs) personType ⟨none⟩ personZero jsondata
        jsondataEntries.reverse).2.2 = none ∧
      jsondataEntries.filter (routedTo (goEnv fixtureDocs) personType 2)
        = [("age", Val.other (GoVal.float64 42))] ∧
      resolve (goEnv fixtureDocs) personType "age"
        = some (2, { Name := "Age", tag := "age", type := GoType.int })) ∧
    ((goEnv fixtureDocs).typeOf (Val.other (GoVal.float64 42)) = GoType.int ∧
        (JSON.UnmarshalJSON (goEnv fixtureDocs) personType ⟨none⟩ personZero jsondata
          jsondataEntries.reverse).2.1 2 = Val.other (GoVal.float64 42) ∨
      (goEnv fixtureDocs).typeOf (Val.other (GoVal.float64 42)) ≠ GoType.int ∧
        ∃ marsh, (goEnv fixtureDocs).marshal (Val.other (GoVal.float64 42)) = .ok marsh ∧
          goUnmarshal marsh GoType.int (personZero 2)
            = ((JSON.UnmarshalJSON (goEnv fixtureDocs) personType ⟨none⟩ personZero jsondata
                jsondataEntries.reverse).2.1 2, none)) ∧
    (JSON.UnmarshalJSON (goEnv fixtureDocs) personType ⟨none⟩ personZero jsondata
      jsondataEntries.reverse).2.1 2 = Val.other (GoVal.int 42) ∧
    (JSON.UnmarshalJSON (goEnv fixtureDocs) personType ⟨none⟩ personZero jsondata
      jsondataEntries.reverse).2.1 1 = Val.str "Jack Wolfington" :=
  ⟨⟨fun _ _ _ _ => rfl, rfl, List.reverse_perm _, rfl, rfl, rfl⟩,
    decode_assigns_document_value (goEnv fixtureDocs) goUnmarshal personType ⟨none⟩
      personZero jsondata jsondataEntries.reverse jsondataEntries 2
      { Name := "Age", tag := "age", type := GoType.int } "age"
      (Val.other (GoVal.float64 42)) (fun _ _ _ _ => rfl) rfl (List.reverse_perm _) rfl rfl
      rfl,
    rfl, rfl⟩

set_option maxRecDepth 100000 in
/-- C5, counterexample. In the fixture the key `ADDRESS` differs from the identifier
of the untagged field `Address` only in letter case, yet decode routes it to no
field: decoding the document with the single key `ADDRESS` succeeds and leaves
`Address` at its zero value.  And in the sharing fixture the keys `a` and `b` are
routed to the untagged fields `A` and `B`, which hold the same pointer: decode
succeeds, but `A` ends up pointing to 2, the value under `b`, not to the value 1
under `a`. -/
theorem case_insensitive_decode_counterexample :
    ((goEnv fixtureDocs).toLower "ADDRESS" = (goEnv fixtureDocs).toLower "Address" ∧
      personType[3]? = some { Name := "Address", tag := "", type := GoType.string } ∧
      resolve (goEnv fixtureDocs) personType "ADDRESS" = none ∧
      (goEnv fixtureDocs).newJson upperDoc = .ok (Val.obj upperDocEntries) ∧
      (JSON.UnmarshalJSON (goEnv fixtureDocs) personType ⟨none⟩ personZero upperDoc
        upperDocEntries).2.2 = none ∧
      (JSON.UnmarshalJSON (goEnv fixtureDocs) personType ⟨none⟩ personZero upperDoc
        upperDocEntries).2.1 3 = Val.str "" ∧
      (JSON.UnmarshalJSON (goEnv fixtureDocs) personType ⟨none⟩ personZero upperDoc
        upperDocEntries).2.1 3 ≠ Val.str "1 Main St.") ∧
    (ptrEnv.toLower "A" = "a" ∧
      resolve ptrEnv sharedType "a"
        = some (0, { Name := "A", tag := "", type := PtrType.intPtr }) ∧
      abLowerEntries.filter (routedTo ptrEnv sharedType 0)
        = [("a", Val.other (PtrVal.float64 1))] ∧
      (JSON.UnmarshalJSON ptrEnv sharedType ⟨none⟩ sharedRecord abLowerDoc
        abLowerEntries).2.2 = none ∧
      (ptrEnv.unmarshal "1" PtrType.intPtr 0 sharedRecord).1 0
        = Val.other (PtrVal.intPtr 1 1) ∧
      (JSON.UnmarshalJSON ptrEnv sharedType ⟨none⟩ sharedRecord abLowerDoc
        abLowerEntries).2.1 0 = Val.other (PtrVal.intPtr 1 2) ∧
      (JSON.UnmarshalJSON ptrEnv sharedType ⟨none⟩ sharedRecord abLowerDoc
        abLowerEntries).2.1 0 ≠ Val.other (PtrVal.intPtr 1 1)) := by
  refine ⟨⟨by decide, rfl, rfl, rfl, rfl, rfl, ?_⟩, ⟨by decide, rfl, rfl, rfl, rfl, rfl, ?_⟩⟩
  · intro h
    have h2 : (Val.str "" : Val GoVal) = Val.str "1 Main St." := h
    simp only [Val.str.injEq] at h2
    exact absurd h2 (by decide)
  · intro h
    have h2 : (Val.other (PtrVal.intPtr 1 2) : Val PtrVal) = Val.other (PtrVal.intPtr 1 1) := h
    simp only [Val.other.injEq] at h2
    exact absurd h2 (by decide)

/-- C5, amended. For a field without a tag in a record type with distinct
identifiers: a document key is routed to the field only if it is the identifier or
the lowercase form of the identifier; such a key is routed to it provided no field
declared after it registers the same key; and then, on a record in which no two
fields share a map or pointer, when decode of an object-rooted document succeeds and
the key is the only root entry routed to the field, the field holds that entry's
value (as it is, or marshalled and unmarshalled into the field when the types
differ). -/
theorem decode_resolves_identifier_or_lowercase {α τ : Type} [DecidableEq τ]
    (env : GoEnv α τ) (pre post : List (StructField τ)) (sf : StructField τ)
    (hnd : ((pre ++ sf :: post).map (fun g => g.Name)).Nodup)
    (htag : sf.tag = "") :
    (∀ k, resolve env (pre ++ sf :: post) k = some (pre.length, sf) →
        k = sf.Name ∨ k = env.toLower sf.Name) ∧
    (∀ k, (k = sf.Name ∨ k = env.toLower sf.Name) →
      (∀ g ∈ post, ¬ registers env g k) →
      resolve env (pre ++ sf :: post) k = some (pre.length, sf) ∧
      ∀ (f : String → τ → Val α → Val α × Option Error) (js : JSON α) (dv : Record α)
        (data : String) (order m : List (String × Val α)) (v : Val α),
        fieldwise env f →
        env.newJson data = .ok (Val.obj m) → order.Perm m →
        (js.UnmarshalJSON env (pre ++ sf :: post) dv data order).2.2 = none →
        m.filter (routedTo env (pre ++ sf :: post) pre.length) = [(k, v)] →
        ((env.typeOf v = sf.type ∧
            (js.UnmarshalJSON env (pre ++ sf :: post) dv data order).2.1 pre.length = v) ∨
          (env.typeOf v ≠ sf.type ∧ ∃ marsh, env.marshal v = .ok marsh ∧
            f marsh sf.type (dv pre.length)
              = ((js.UnmarshalJSON env (pre ++ sf :: post) dv data order).2.1 pre.length,
                  none)))) := by
  constructor
  · intro k hres
    obtain ⟨pre2, post2, _, _, hreg, _⟩ := resolve_some env _ hnd k pre.length sf hres
    unfold registers at hreg
    rw [htag] at hreg
    simpa using hreg.2
  · intro k hk hlater
    have hreg : registers env sf k := by
      unfold registers
      refine ⟨by rw [htag]; decide, ?_⟩
      rcases hk with hk | hk
      · exact Or.inl hk
      · exact Or.inr (by simp [htag, hk])
    have hres := resolve_of_last env pre post sf hnd k hreg hlater
    refine ⟨hres, ?_⟩
    intro f js dv data order m v hfw hdoc hperm hok hone
    rw [UnmarshalJSON_record env _ js dv data order m hdoc] at hok ⊢
    exact syncLoop_single env f hfw _ order dv pre.length sf k v
      (filter_single_of_perm _ order m _ hperm hone) hres hok

set_option maxRecDepth 100000 in
/-- Witness for C5 (amended) on the fixture: the key `address` and the field
`Address`. -/
theorem decode_resolves_identifier_or_lowercase_witness :
    resolve (goEnv fixtureDocs) personType "address"
        = some (3, { Name := "Address", tag := "", type := GoType.string }) ∧
    ("address" = "Address" ∨ "address" = (goEnv fixtureDocs).toLower "Address") ∧
    (JSON.UnmarshalJSON (goEnv fixtureDocs) personType ⟨none⟩ personZero jsondata
      jsondataEntries).2.1 3 = Val.str "123 Fake St." := by
  have h := decode_resolves_identifier_or_lowercase (goEnv fixtureDocs)
    [{ Name := "JSON", tag := "-", type := GoType.handle },
     { Name := "Name", tag := "name", type := GoType.string },
     { Name := "Age", tag := "age", type := GoType.int }]
    [{ Name := "CreatedAt", tag := "", type := GoType.time },
     { Name := "Ignored", tag := "-", type := GoType.bool }]
    { Name := "Address", tag := "", type := GoType.string }
    (by decide) rfl
  have hpos := h.2 "address" (Or.inr (by decide)) (by decide)
  refine ⟨hpos.1, h.1 "address" hpos.1, ?_⟩
  have h2 := hpos.2 goUnmarshal ⟨none⟩ personZero jsondata jsondataEntries jsondataEntries
    (Val.str "123 Fake St.") (fun _ _ _ _ => rfl) rfl (List.Perm.refl _) rfl rfl
  rcases h2 with ⟨_, h3⟩ | ⟨h3, _⟩
  · exact h3
  · exact absurd rfl h3

theorem routedTo_excluded {α τ : Type} (env : GoEnv α τ) (dt : List (StructField τ))
    (hnd : (dt.map (fun g => g.Name)).Nodup) (i : Nat) (sf : StructField τ)
    (hi : dt[i]? = some sf) (hx : sf.tag = "-") (e : String × Val α) :
    routedTo env dt i e = false := by
  unfold routedTo
  cases hr : resolve env dt e.1 with
  | none => rfl
  | some p =>
    obtain ⟨j, g⟩ := p
    simp only [decide_eq_false_iff_not]
    intro hji
    obtain ⟨pre, post, hdt, hj, hreg, _⟩ := resolve_some env dt hnd e.1 j g hr
    subst hdt hji hj
    simp only [List.getElem?_append_right (Nat.le_refl _), Nat.sub_self,
      List.getElem?_cons_zero, Option.some.injEq] at hi
    subst hi
    exact hreg.1 hx

theorem syncToStruct_excluded {α τ : Type} [DecidableEq τ] (env : GoEnv α τ)
    (dt : List (StructField τ)) (hnd : (dt.map (fun g => g.Name)).Nodup) (i : Nat)
    (sf : StructField τ) (hi : dt[i]? = some sf) (hx : sf.tag = "-")
    (hun : unshared env i) (dv : Record α)
    (j : Val α) (order : List (String × Val α)) :
    (syncToStruct env dt dv j order).1 i = dv i := by
  unfold syncToStruct
  cases j.Map with
  | none => rfl
  | some _ =>
    apply syncLoop_frame _ _ _ _ _ _ hun
    rw [List.filter_eq_nil_iff]
    intro e _
    simp [routedTo_excluded env dt hnd i sf hi hx e]

/-- C6, counterexample. In the sharing fixture the excluded field `C` holds the same
pointer as `A` and `B`: decoding the document with `A` 1 and `B` 2 leaves `C` pointing
to 2 instead of 0. -/
theorem excluded_field_counterexample :
    sharedType[2]? = some { Name := "C", tag := "-", type := PtrType.intPtr } ∧
    sharedRecord 2 = Val.other (PtrVal.intPtr 1 0) ∧
    (JSON.UnmarshalJSON ptrEnv sharedType ⟨none⟩ sharedRecord abDoc abEntries).2.2 = none ∧
    (JSON.UnmarshalJSON ptrEnv sharedType ⟨none⟩ sharedRecord abDoc abEntries).2.1 2
      = Val.other (PtrVal.intPtr 1 2) ∧
    (JSON.UnmarshalJSON ptrEnv sharedType ⟨none⟩ sharedRecord abDoc abEntries).2.1 2
      ≠ sharedRecord 2 := by
  refine ⟨rfl, rfl, rfl, rfl, ?_⟩
  intro h
  have h2 : (Val.other (PtrVal.intPtr 1 2) : Val PtrVal) = Val.other (PtrVal.intPtr 1 0) := h
  simp only [Val.other.injEq] at h2
  exact absurd h2 (by decide)

/-- C6, amended. A field whose tag is `-` and which shares no map or pointer with
another field keeps its value through decode of any input; and encode leaves the
tree entry under the identifier of a field tagged `-` as it was (absent or present
with the same value) unless the identifier is the effective key of a non-excluded
field. -/
theorem excluded_field_untouched {α τ : Type} [DecidableEq τ] (env : GoEnv α τ)
    (dt : List (StructField τ)) (i : Nat) (sf : StructField τ)
    (hnd : (dt.map (fun g => g.Name)).Nodup)
    (hi : dt[i]? = some sf) (hx : sf.tag = "-") :
    (unshared env i →
      ∀ (js : JSON α) (dv : Record α) (data : String) (order : List (String × Val α)),
        (js.UnmarshalJSON env dt dv data order).2.1 i = dv i) ∧
    (∀ (js : JSON α) (dv : Record α),
        (∀ g ∈ dt, g.tag ≠ "-" → effectiveKey g ≠ sf.Name) →
        (js.MarshalJSON env dt dv).1.tree.CheckGet sf.Name = js.tree.CheckGet sf.Name) := by
  constructor
  · intro hun js dv data order
    unfold JSON.UnmarshalJSON
    cases env.newJson data with
    | error err => rfl
    | ok j => exact syncToStruct_excluded env dt hnd i sf hi hx hun dv j order
  · intro js dv hfree
    rw [MarshalJSON_tree, syncFromLoop_frame _ _ _ _ _ hfree]

set_option maxRecDepth 100000 in
/-- Witness for C6 (amended) on the fixture: the field `Ignored`, with the document
holding `"Ignored": true`. -/
theorem excluded_field_untouched_witness :
    unshared (goEnv fixtureDocs) 5 ∧
    mapGet jsondataEntries "Ignored" = some (Val.other (GoVal.bool true)) ∧
    (JSON.UnmarshalJSON (goEnv fixtureDocs) personType ⟨none⟩ personZero jsondata
      jsondataEntries).2.1 5 = personZero 5 ∧
    (JSON.MarshalJSON (goEnv fixtureDocs) personType ⟨none⟩ personEncode).1.tree.CheckGet
      "Ignored" = none ∧
    (JSON.MarshalJSON (goEnv fixtureDocs) personType ⟨some jsondataTree⟩
      personEncode).1.tree.CheckGet "Ignored" = some (Val.other (GoVal.bool true)) :=
  ⟨unshared_of_fieldwise (goEnv fixtureDocs) goUnmarshal (fun _ _ _ _ => rfl) 5,
    rfl,
    (excluded_field_untouched (goEnv fixtureDocs) personType 5
      { Name := "Ignored", tag := "-", type := GoType.bool } (by decide) rfl rfl).1
      (unshared_of_fieldwise (goEnv fixtureDocs) goUnmarshal (fun _ _ _ _ => rfl) 5)
      ⟨none⟩ personZero jsondata jsondataEntries,
    (excluded_field_untouched (goEnv fixtureDocs) personType 5
      { Name := "Ignored", tag := "-", type := GoType.bool } (by decide) rfl rfl).2
      ⟨none⟩ personEncode (by decide),
    (excluded_field_untouched (goEnv fixtureDocs) personType 5
      { Name := "Ignored", tag := "-", type := GoType.bool } (by decide) rfl rfl).2
      ⟨some jsondataTree⟩ personEncode (by decide)⟩

/-- C7, counterexample. A record type with two fields tagged `x`: after `Set("k", v)`
on a fresh handle and encode, the effective key `x` of the first field holds the
second field's value, not the first field's current value. -/
theorem inject_then_encode_counterexample :
    twinType[0]? = some { Name := "A", tag := "x", type := GoType.string } ∧
    effectiveKey ({ Name := "A", tag := "x", type := GoType.string } : StructField GoType) = "x" ∧
    (JSON.Set (⟨none⟩ : JSON GoVal) [Val.str "k", Val.str "v"]).2 = none ∧
    twinRecord 0 = Val.str "first" ∧
    ((JSON.Set (⟨none⟩ : JSON GoVal) [Val.str "k", Val.str "v"]).1.MarshalJSON
      (goEnv fixtureDocs) twinType twinRecord).1.tree.CheckGet "x" = some (Val.str "second") ∧
    ((JSON.Set (⟨none⟩ : JSON GoVal) [Val.str "k", Val.str "v"]).1.MarshalJSON
      (goEnv fixtureDocs) twinType twinRecord).1.tree.CheckGet "x" ≠ some (twinRecord 0) := by
  refine ⟨rfl, rfl, rfl, rfl, rfl, ?_⟩
  intro h
  have h2 : some (Val.str "second" : Val GoVal) = some (Val.str "first") := h
  simp only [Option.some.injEq, Val.str.injEq] at h2
  exact absurd h2 (by decide)

/-- C7, amended. For a record type whose non-excluded fields have pairwise distinct
effective keys, a fresh handle, a key `k` that is no effective key of a non-excluded
field and any value `v`: `Set(k, v)` returns no error, and the tree that the
following encode serialises is an object whose keys are exactly `k` and the effective
keys of the non-excluded fields, with `v` under `k` and every non-excluded field's
current value under its effective key. -/
theorem inject_then_encode {α τ : Type} (env : GoEnv α τ) (dt : List (StructField τ))
    (js : JSON α) (dv : Record α) (k : String) (v : Val α)
    (hdist : ((dt.filter (fun g => decide (g.tag ≠ "-"))).map effectiveKey).Nodup)
    (hfresh : js.json = none)
    (hk : ∀ g ∈ dt, g.tag ≠ "-" → effectiveKey g ≠ k) :
    (js.Set [Val.str k, v]).2 = none ∧
    (∃ m2, ((js.Set [Val.str k, v]).1.MarshalJSON env dt dv).1.tree = Val.obj m2) ∧
    (∀ x, (((js.Set [Val.str k, v]).1.MarshalJSON env dt dv).1.tree.CheckGet x).isSome = true ↔
        (x = k ∨ ∃ g ∈ dt, g.tag ≠ "-" ∧ effectiveKey g = x)) ∧
    ((js.Set [Val.str k, v]).1.MarshalJSON env dt dv).1.tree.CheckGet k = some v ∧
    (∀ i sf, dt[i]? = some sf → sf.tag ≠ "-" →
        ((js.Set [Val.str k, v]).1.MarshalJSON env dt dv).1.tree.CheckGet (effectiveKey sf)
          = some (dv i)) := by
  have hset : js.Set [Val.str k, v] = ({ json := some (Val.obj [(k, v)]) }, none) := by
    have h := Set_path_str js [] k v
    have ht : js.tree = Val.obj [] := by simp [JSON.tree, hfresh]
    simpa [setLoop, ht, Set_obj, mapSet] using h
  rw [hset]
  have ht : (JSON.MarshalJSON env dt { json := some (Val.obj [(k, v)]) } dv).1.tree
      = syncFromLoop dv dt 0 (Val.obj [(k, v)]) := MarshalJSON_tree env dt _ dv
  refine ⟨rfl, ?_, ?_, ?_, ?_⟩
  · rw [ht]
    exact syncFromLoop_obj dv dt 0 _
  · intro x
    rw [ht, syncFromLoop_keys]
    have : (mapGet [(k, v)] x).isSome = true ↔ x = k := by
      by_cases hx : k = x
      · simp [mapGet, hx]
      · simp only [mapGet, hx, if_false, Option.isSome_none, Bool.false_eq_true, false_iff]
        exact fun h => hx h.symm
    rw [this]
  · rw [ht, syncFromLoop_frame _ _ _ _ _ hk]
    simp [CheckGet_obj, mapGet]
  · intro i sf hi hsf
    rw [ht]
    exact syncFromLoop_get_distinct dt dv _ i sf hdist hi hsf

/-- Witness for C7 (amended) on the fixture (`TestEncode`): `Set("Pi", 3)` on the
fresh handle of a `Person`, then encode. -/
theorem inject_then_encode_witness :
    ((personType.filter (fun g => decide (g.tag ≠ "-"))).map effectiveKey).Nodup ∧
    (JSON.Set (⟨none⟩ : JSON GoVal) [Val.str "Pi", Val.other (GoVal.float64 3)]).2 = none ∧
    ((JSON.Set (⟨none⟩ : JSON GoVal) [Val.str "Pi", Val.other (GoVal.float64 3)]).1.MarshalJSON
      (goEnv fixtureDocs) personType personEncode).1.tree.CheckGet "Pi"
        = some (Val.other (GoVal.float64 3)) ∧
    ((JSON.Set (⟨none⟩ : JSON GoVal) [Val.str "Pi", Val.other (GoVal.float64 3)]).1.MarshalJSON
      (goEnv fixtureDocs) personType personEncode).1.tree.CheckGet "name"
        = some (Val.str "Wolf Jackington") :=
  ⟨by decide,
    (inject_then_encode (goEnv fixtureDocs) personType ⟨none⟩ personEncode "Pi"
      (Val.other (GoVal.float64 3)) (by decide) rfl (by decide)).1,
    (inject_then_encode (goEnv fixtureDocs) personType ⟨none⟩ personEncode "Pi"
      (Val.other (GoVal.float64 3)) (by decide) rfl (by decide)).2.2.2.1,
    (inject_then_encode (goEnv fixtureDocs) personType ⟨none⟩ personEncode "Pi"
      (Val.other (GoVal.float64 3)) (by decide) rfl (by decide)).2.2.2.2 1
      { Name := "Name", tag := "name", type := GoType.string } rfl (by decide)⟩

/-- C8, failing input. On the tree of the document with the single entry `"a": 1`,
`Set("a", "b", 2)` returns no error and leaves the tree as it was: the cursor moves
onto the number under `a` (line 48) and `j.Set` on it does nothing, so walking `a`
reaches no object and no key `b`. -/
theorem Set_through_scalar_sets_nothing :
    JSON.Set ⟨some scalarTree⟩ [Val.str "a", Val.str "b", Val.other (GoVal.float64 2)]
      = (⟨some scalarTree⟩, none) ∧
    (JSON.Set ⟨some scalarTree⟩
      [Val.str "a", Val.str "b", Val.other (GoVal.float64 2)]).1.tree.Get "a"
      = Val.other (GoVal.float64 1) ∧
    ((JSON.Set ⟨some scalarTree⟩
      [Val.str "a", Val.str "b", Val.other (GoVal.float64 2)]).1.tree.Get "a").CheckGet "b"
      = none :=
  ⟨rfl, rfl, rfl⟩

/-- C9, failing input. On the tree of the document with the single entry `"a": 1`,
`Set("a", "b", "c", 1)` followed by `Set("a", "b", "d", 2)` both return no error and
leave the tree as it was: there is no object at `a.b`, and neither `c` nor `d` is
stored. -/
theorem Set_twice_through_scalar_sets_nothing :
    JSON.Set ⟨some scalarTree⟩
        [Val.str "a", Val.str "b", Val.str "c", Val.other (GoVal.float64 1)]
      = (⟨some scalarTree⟩, none) ∧
    JSON.Set (JSON.Set ⟨some scalarTree⟩
        [Val.str "a", Val.str "b", Val.str "c", Val.other (GoVal.float64 1)]).1
        [Val.str "a", Val.str "b", Val.str "d", Val.other (GoVal.float64 2)]
      = (⟨some scalarTree⟩, none) ∧
    ((scalarTree.Get "a").Get "b").Map = none :=
  ⟨rfl, rfl, rfl⟩

/-- C10. `Set` returns an error exactly when the argument list has fewer than two
elements or some argument other than the last one is not a string. -/
theorem Set_error_iff {α : Type} (js : JSON α) (args : List (Val α)) :
    (js.Set args).2.isSome = true ↔
      (args.length < 2 ∨ ∃ x ∈ args.dropLast, ∀ s, x ≠ Val.str s) := by
  by_cases hlen : args.length < 2
  · rw [Set_short js args hlen]
    simp [hlen]
  · obtain ⟨path, kv, v, rfl⟩ := Set_args_decompose args (by omega)
    have hdrop : (path ++ [kv, v]).dropLast = path ++ [kv] := by
      have : path ++ [kv, v] = (path ++ [kv]) ++ [v] := by simp
      rw [this, List.dropLast_concat]
    rw [hdrop]
    by_cases hkv : ∃ s, kv = Val.str s
    · obtain ⟨key, rfl⟩ := hkv
      rw [Set_path_str]
      simp only [setLoop_err_iff]
      constructor
      · rintro ⟨p, hp, hs⟩
        exact Or.inr ⟨p, by simp [hp], hs⟩
      · rintro (h | ⟨p, hp, hs⟩)
        · exact absurd h hlen
        · simp only [List.mem_append, List.mem_singleton] at hp
          rcases hp with hp | hp
          · exact ⟨p, hp, hs⟩
          · exact absurd hp (hs key)
    · rw [Set_path_nonstr js path kv v (fun s h => hkv ⟨s, h⟩)]
      simp only [Option.isSome_some, true_iff]
      exact Or.inr ⟨kv, by simp, fun s h => hkv ⟨s, h⟩⟩

/-- C11. Decode rejects a non-object root: when the input parses to a value that is
not a map, `UnmarshalJSON` returns an error and the record is what it was. -/
theorem decode_rejects_non_object_root {α τ : Type} [DecidableEq τ] (env : GoEnv α τ)
    (dt : List (StructField τ)) (js : JSON α) (dv : Record α) (data : String)
    (order : List (String × Val α)) (j : Val α)
    (hdoc : env.newJson data = .ok j) (hroot : j.Map = none) :
    (js.UnmarshalJSON env dt dv data order).2.2.isSome = true ∧
      (js.UnmarshalJSON env dt dv data order).2.1 = dv := by
  simp [JSON.UnmarshalJSON, hdoc, syncToStruct, hroot]

/-- Witness for C11 on the fixture: the document `42`. -/
theorem decode_rejects_non_object_root_witness :
    (goEnv moreDocs).newJson "42" = .ok (Val.other (GoVal.float64 42)) ∧
    (Val.other (GoVal.float64 42) : Val GoVal).Map = none ∧
    (JSON.UnmarshalJSON (goEnv moreDocs) personType ⟨none⟩ personZero "42" []).2.2.isSome = true ∧
    (JSON.UnmarshalJSON (goEnv moreDocs) personType ⟨none⟩ personZero "42" []).2.1 = personZero :=
  ⟨rfl, rfl,
    decode_rejects_non_object_root (goEnv moreDocs) personType ⟨none⟩ personZero "42" []
      (Val.other (GoVal.float64 42)) rfl rfl⟩

/-- C12, counterexample. Two decodes of the fixture that return an error and do not
leave everything as it was: the document `42` on a handle that holds the tree of
`jsondata` replaces the retained tree by the number; the document whose `age` is a
string, visited `name` first, returns the error of the `Age` field after `Name` has
been assigned. -/
theorem decode_atomic_counterexample :
    ((JSON.UnmarshalJSON (goEnv moreDocs) personType ⟨some jsondataTree⟩ personZero "42"
        []).2.2.isSome = true ∧
      (JSON.UnmarshalJSON (goEnv moreDocs) personType ⟨some jsondataTree⟩ personZero "42"
        []).1.tree = Val.other (GoVal.float64 42) ∧
      (JSON.UnmarshalJSON (goEnv moreDocs) personType ⟨some jsondataTree⟩ personZero "42"
        []).1.tree ≠ (⟨some jsondataTree⟩ : JSON GoVal).tree) ∧
    ((JSON.UnmarshalJSON (goEnv moreDocs) personType ⟨none⟩ personZero badAgeDoc
        badAgeEntries).2.2.isSome = true ∧
      personZero 1 = Val.str "" ∧
      (JSON.UnmarshalJSON (goEnv moreDocs) personType ⟨none⟩ personZero badAgeDoc
        badAgeEntries).2.1 1 = Val.str "Jack" ∧
      (JSON.UnmarshalJSON (goEnv moreDocs) personType ⟨none⟩ personZero badAgeDoc
        badAgeEntries).2.1 1 ≠ personZero 1 ∧
      (JSON.UnmarshalJSON (goEnv moreDocs) personType ⟨none⟩ personZero badAgeDoc
        badAgeEntries).1.json = some (Val.obj badAgeEntries)) := by
  refine ⟨⟨rfl, rfl, ?_⟩, ⟨rfl, rfl, rfl, ?_, rfl⟩⟩
  · intro h
    have h2 : (Val.other (GoVal.float64 42) : Val GoVal) = Val.obj jsondataEntries := h
    exact Val.noConfusion h2
  · intro h
    have h2 : (Val.str "Jack" : Val GoVal) = Val.str "" := h
    simp only [Val.str.injEq] at h2
    exact absurd h2 (by decide)

/-- C12, amended. When the input does not parse, `UnmarshalJSON` returns the parse
error and both the record and the handle are what they were. When it parses, the
handle retains the parsed tree whatever happens next, and if the root is not a map
the record is what it was. -/
theorem decode_atomic_on_parse_error {α τ : Type} [DecidableEq τ] (env : GoEnv α τ)
    (dt : List (StructField τ)) (js : JSON α) (dv : Record α) (data : String)
    (order : List (String × Val α)) :
    (∀ err, env.newJson data = .error err →
        js.UnmarshalJSON env dt dv data order = (js, dv, some err)) ∧
    (∀ j, env.newJson data = .ok j →
        (js.UnmarshalJSON env dt dv data order).1 = { json := some j } ∧
        (j.Map = none → (js.UnmarshalJSON env dt dv data order).2.1 = dv)) := by
  constructor
  · intro err herr
    simp [JSON.UnmarshalJSON, herr]
  · intro j hdoc
    refine ⟨UnmarshalJSON_tree env dt js dv data order j hdoc, ?_⟩
    intro hroot
    simp [JSON.UnmarshalJSON, hdoc, syncToStruct, hroot]

/-- Witness for C12 (amended) on the fixture: a text the parser rejects, and the
document `42`. -/
theorem decode_atomic_on_parse_error_witness :
    JSON.UnmarshalJSON (goEnv moreDocs) personType ⟨some jsondataTree⟩ personEncode "\x7b"
        [] = (⟨some jsondataTree⟩, personEncode, some "unexpected end of JSON input") ∧
    (JSON.UnmarshalJSON (goEnv moreDocs) personType ⟨some jsondataTree⟩ personEncode "42"
        []).2.1 = personEncode :=
  ⟨(decode_atomic_on_parse_error (goEnv moreDocs) personType ⟨some jsondataTree⟩ personEncode
      "\x7b" []).1 "unexpected end of JSON input" rfl,
    ((decode_atomic_on_parse_error (goEnv moreDocs) personType ⟨some jsondataTree⟩ personEncode
      "42" []).2 (Val.other (GoVal.float64 42)) rfl).2 rfl⟩

/-- C14, counterexample. On the fixture: `Set("name", "injected")`, then decode of the
document with the single key `ADDRESS` (which has no key `name`) succeeds, and the
following encode has the key `name` all the same, written from the record. -/
theorem decode_replaces_tree_counterexample :
    mapGet upperDocEntries "name" = none ∧
    (JSON.UnmarshalJSON (goEnv moreDocs) personType
      (JSON.Set ⟨none⟩ [Val.str "name", Val.str "injected"]).1 personZero upperDoc
      upperDocEntries).2.2 = none ∧
    ((JSON.UnmarshalJSON (goEnv moreDocs) personType
      (JSON.Set ⟨none⟩ [Val.str "name", Val.str "injected"]).1 personZero upperDoc
      upperDocEntries).1.MarshalJSON (goEnv moreDocs) personType personEncode).1.tree.CheckGet
        "name" = some (Val.str "Wolf Jackington") ∧
    ((JSON.UnmarshalJSON (goEnv moreDocs) personType
      (JSON.Set ⟨none⟩ [Val.str "name", Val.str "injected"]).1 personZero upperDoc
      upperDocEntries).1.MarshalJSON (goEnv moreDocs) personType personEncode).1.tree.CheckGet
        "name" ≠ none := by
  refine ⟨rfl, rfl, rfl, ?_⟩
  intro h
  have h2 : some (Val.str "Wolf Jackington" : Val GoVal) = none := h
  exact Option.noConfusion h2

/-- C14, amended. Whenever the input parses (in particular when decode succeeds),
the handle retains exactly the parsed tree, whatever it held before; so a key that
does not occur in the new document and is not the effective key of a non-excluded
field is absent from the tree a following encode serialises. -/
theorem decode_replaces_tree {α τ : Type} [DecidableEq τ] (env : GoEnv α τ)
    (dt : List (StructField τ)) (js : JSON α) (dv dv2 : Record α) (data : String)
    (order m : List (String × Val α)) (k : String)
    (hdoc : env.newJson data = .ok (Val.obj m))
    (habsent : mapGet m k = none)
    (hk : ∀ g ∈ dt, g.tag ≠ "-" → effectiveKey g ≠ k) :
    (js.UnmarshalJSON env dt dv data order).1 = { json := some (Val.obj m) } ∧
    ((js.UnmarshalJSON env dt dv data order).1.MarshalJSON env dt dv2).1.tree.CheckGet k
      = none := by
  refine ⟨UnmarshalJSON_tree env dt js dv data order _ hdoc, ?_⟩
  rw [MarshalJSON_tree, syncFromLoop_frame _ _ _ _ _ hk,
    UnmarshalJSON_tree env dt js dv data order _ hdoc]
  exact habsent

set_option maxRecDepth 100000 in
/-- Witness for C14 (amended) on the fixture: `Set("Pi", 3)`, then decode of `jsondata`
and encode; `Pi` is gone. -/
theorem decode_replaces_tree_witness :
    (JSON.UnmarshalJSON (goEnv fixtureDocs) personType
      (JSON.Set ⟨none⟩ [Val.str "Pi", Val.other (GoVal.float64 3)]).1 personZero jsondata
      jsondataEntries).1 = { json := some (Val.obj jsondataEntries) } ∧
    ((JSON.UnmarshalJSON (goEnv fixtureDocs) personType
      (JSON.Set ⟨none⟩ [Val.str "Pi", Val.other (GoVal.float64 3)]).1 personZero jsondata
      jsondataEntries).1.MarshalJSON (goEnv fixtureDocs) personType personEncode).1.tree.CheckGet
        "Pi" = none :=
  decode_replaces_tree (goEnv fixtureDocs) personType
    (JSON.Set ⟨none⟩ [Val.str "Pi", Val.other (GoVal.float64 3)]).1 personZero personEncode
    jsondata jsondataEntries jsondataEntries "Pi" rfl rfl (by decide)

/-- C15, counterexample. In the sharing fixture the fields `A` and `B` hold the same
pointer: decoding the document with the single entry `A` 1 succeeds, no root entry is
routed to `B`, and yet `B` points to 1 afterwards instead of 0. -/
theorem decode_unmatched_counterexample :
    ptrEnv.newJson aDoc = .ok (Val.obj aEntries) ∧
    aEntries.filter (routedTo ptrEnv sharedType 1) = [] ∧
    (JSON.UnmarshalJSON ptrEnv sharedType ⟨none⟩ sharedRecord aDoc aEntries).2.2 = none ∧
    sharedRecord 1 = Val.other (PtrVal.intPtr 1 0) ∧
    (JSON.UnmarshalJSON ptrEnv sharedType ⟨none⟩ sharedRecord aDoc aEntries).2.1 1
      = Val.other (PtrVal.intPtr 1 1) ∧
    (JSON.UnmarshalJSON ptrEnv sharedType ⟨none⟩ sharedRecord aDoc aEntries).2.1 1
      ≠ sharedRecord 1 := by
  refine ⟨rfl, rfl, rfl, rfl, rfl, ?_⟩
  intro h
  have h2 : (Val.other (PtrVal.intPtr 1 1) : Val PtrVal) = Val.other (PtrVal.intPtr 1 0) := h
  simp only [Val.other.injEq] at h2
  exact absurd h2 (by decide)

/-- C15, amended. Decode leaves unmatched fields alone: a field to which no root
entry of the document is routed and which shares no map or pointer with another
field holds after decode what it held before, whether decode succeeds or not. -/
theorem decode_leaves_unmatched_fields {α τ : Type} [DecidableEq τ] (env : GoEnv α τ)
    (dt : List (StructField τ)) (js : JSON α) (dv : Record α) (data : String)
    (order m : List (String × Val α)) (i : Nat)
    (hun : unshared env i)
    (hdoc : env.newJson data = .ok (Val.obj m))
    (hperm : order.Perm m)
    (hnone : m.filter (routedTo env dt i) = []) :
    (js.UnmarshalJSON env dt dv data order).2.1 i = dv i := by
  rw [UnmarshalJSON_record env dt js dv data order m hdoc]
  apply syncLoop_frame _ _ _ _ _ _ hun
  have := hperm.filter (routedTo env dt i)
  rw [hnone] at this
  exact List.Perm.eq_nil this

/-- Witness for C15 (amended) on the fixture: the document with the single key
`ADDRESS` leaves the field `Address` of a fresh `Person` at its zero value. -/
theorem decode_leaves_unmatched_fields_witness :
    unshared (goEnv moreDocs) 3 ∧
    (goEnv moreDocs).newJson upperDoc = .ok (Val.obj upperDocEntries) ∧
    upperDocEntries.filter (routedTo (goEnv moreDocs) personType 3) = [] ∧
    (JSON.UnmarshalJSON (goEnv moreDocs) personType ⟨none⟩ personZero upperDoc
      upperDocEntries).2.1 3 = Val.str "" :=
  ⟨unshared_of_fieldwise (goEnv moreDocs) goUnmarshal (fun _ _ _ _ => rfl) 3, rfl, rfl,
    decode_leaves_unmatched_fields (goEnv moreDocs) personType ⟨none⟩ personZero upperDoc
      upperDocEntries upperDocEntries 3
      (unshared_of_fieldwise (goEnv moreDocs) goUnmarshal (fun _ _ _ _ => rfl) 3)
      rfl (List.Perm.refl _) rfl⟩

theorem setLoop_err_unchanged {α : Type} (key : String) (v : Val α) (path : List (Val α))
    (j : Val α) (herr : (setLoop key v path j).2.isSome = true) (hpres : noCreation j path) :
    (setLoop key v path j).1 = j := by
  induction path generalizing j with
  | nil => simp [setLoop] at herr
  | cons p ps ih =>
    cases p with
    | str strp =>
      cases hm : j.Map with
      | none => exact setLoop_nonmap key v _ j hm
      | some m =>
        have hj : j = Val.obj m := by
          cases j <;> simp [Val.Map] at hm
          rw [hm]
        subst hj
        simp only [noCreation, Val.Map] at hpres
        cases hg : mapGet m strp with
        | none => rw [hg] at hpres; exact absurd hpres (by simp)
        | some c =>
          rw [hg] at hpres
          have hc : (Val.obj m).CheckGet strp = some c := by simp [CheckGet_obj, hg]
          simp only [setLoop, hc] at herr ⊢
          rw [ih c herr hpres]
          exact Set_of_CheckGet _ _ _ hc
    | null => simp [setLoop]
    | obj _ => simp [setLoop]
    | other _ => simp [setLoop]

/-- C13, counterexample. On a fresh handle `Set("a", 5, "k", "v")` returns an error
(the segment 5 is not a string) after the empty object for `a` has been created: the
tree, empty before, holds `a` afterwards. -/
theorem Set_atomic_counterexample :
    (JSON.Set (⟨none⟩ : JSON GoVal)
      [Val.str "a", Val.other (GoVal.float64 5), Val.str "k", Val.str "v"]).2
        = some "all args except last must be strings" ∧
    (⟨none⟩ : JSON GoVal).tree = Val.obj [] ∧
    (JSON.Set (⟨none⟩ : JSON GoVal)
      [Val.str "a", Val.other (GoVal.float64 5), Val.str "k", Val.str "v"]).1.tree
        = Val.obj [("a", Val.obj [])] ∧
    (JSON.Set (⟨none⟩ : JSON GoVal)
      [Val.str "a", Val.other (GoVal.float64 5), Val.str "k", Val.str "v"]).1.tree
        ≠ (⟨none⟩ : JSON GoVal).tree := by
  refine ⟨rfl, rfl, rfl, ?_⟩
  intro h
  have h2 : (Val.obj [("a", Val.obj [])] : Val GoVal) = Val.obj [] := h
  simp only [Val.obj.injEq] at h2
  exact List.noConfusion h2

theorem setLoop_unchanged_noCreation {α : Type} (key : String) (v : Val α)
    (path : List (Val α)) (j : Val α) (heq : (setLoop key v path j).1 = j)
    (herr : (setLoop key v path j).2.isSome = true) : noCreation j path := by
  induction path generalizing j with
  | nil => simp [noCreation]
  | cons p ps ih =>
    cases p with
    | str strp =>
      cases hm : j.Map with
      | none => simp [noCreation, hm]
      | some m =>
        have hj : j = Val.obj m := by
          cases j <;> simp [Val.Map] at hm
          rw [hm]
        subst hj
        cases hg : mapGet m strp with
        | none =>
          have hc : (Val.obj m).CheckGet strp = none := by simp [CheckGet_obj, hg]
          simp only [setLoop, hc] at heq
          have h2 := congrArg (fun t => Val.CheckGet t strp) heq
          simp only [Set_obj, CheckGet_obj, mapGet_mapSet_self, hg] at h2
          exact Option.noConfusion h2
        | some c =>
          have hc : (Val.obj m).CheckGet strp = some c := by simp [CheckGet_obj, hg]
          simp only [setLoop, hc] at heq herr
          have h2 := congrArg (fun t => Val.CheckGet t strp) heq
          simp only [Set_obj, CheckGet_obj, mapGet_mapSet_self, hg, Option.some.injEq] at h2
          simp only [noCreation, Val.Map, hg]
          exact ih c h2 herr
    | null => simp [noCreation]
    | obj _ => simp [noCreation]
    | other _ => simp [noCreation]

/-- C13, amended. When `Set` returns an error, the tree holds what it held before
(an uninitialised tree counting as the empty object) exactly in these cases: the
argument list has fewer than two elements; or the key, the last argument but one, is
not a string; or no string segment before the offending one names a key that is
absent from the map the cursor is on.  In the remaining case, an offending segment
after string segments that had to be created, the tree has changed. -/
theorem Set_atomic_iff {α : Type} (js : JSON α) (args : List (Val α))
    (herr : (js.Set args).2.isSome = true) :
    (js.Set args).1.tree = js.tree ↔
      (args.length < 2 ∨ (∀ s, args[args.length - 2]? ≠ some (Val.str s)) ∨
        noCreation js.tree (args.take (args.length - 2))) := by
  by_cases hlen : args.length < 2
  · rw [Set_short js args hlen]
    exact ⟨fun _ => Or.inl hlen, fun _ => maybeInit_tree js⟩
  · obtain ⟨path, kv, v, rfl⟩ := Set_args_decompose args (by omega)
    have htake : (path ++ [kv, v]).take ((path ++ [kv, v]).length - 2) = path := by
      simp
    have hkey : (path ++ [kv, v])[(path ++ [kv, v]).length - 2]? = some kv := by
      have e : (path ++ [kv, v]).length - 2 = path.length := by simp
      rw [e, List.getElem?_append_right (Nat.le_refl _)]
      simp
    rw [htake, hkey]
    by_cases hkv : ∃ s, kv = Val.str s
    · obtain ⟨key, rfl⟩ := hkv
      rw [Set_path_str] at herr ⊢
      constructor
      · intro heq
        exact Or.inr (Or.inr (setLoop_unchanged_noCreation key v path js.tree heq herr))
      · rintro (h | h | h)
        · exact absurd h hlen
        · exact absurd rfl (h key)
        · exact setLoop_err_unchanged key v path js.tree herr h
    · rw [Set_path_nonstr js path kv v (fun s h => hkv ⟨s, h⟩)]
      refine ⟨fun _ => Or.inr (Or.inl ?_), fun _ => maybeInit_tree js⟩
      intro s hs
      exact hkv ⟨s, Option.some.inj hs⟩

/-- Witness for C13 (amended): on a fresh handle `Set("a", 5, "v")` returns an error
for the key 5 and leaves the tree empty; on the tree of `"a": 1` the call
`Set("a", 5, "k", "v")` returns an error and leaves the tree as it was. -/
theorem Set_atomic_iff_witness :
    ((JSON.Set (⟨none⟩ : JSON GoVal)
        [Val.str "a", Val.other (GoVal.float64 5), Val.str "v"]).2.isSome = true ∧
      (JSON.Set (⟨none⟩ : JSON GoVal)
        [Val.str "a", Val.other (GoVal.float64 5), Val.str "v"]).1.tree = Val.obj []) ∧
    ((JSON.Set ⟨some scalarTree⟩
        [Val.str "a", Val.other (GoVal.float64 5), Val.str "k", Val.str "v"]).2.isSome
        = true ∧
      (JSON.Set ⟨some scalarTree⟩
        [Val.str "a", Val.other (GoVal.float64 5), Val.str "k", Val.str "v"]).1.tree
        = scalarTree) :=
  ⟨⟨rfl,
      (Set_atomic_iff ⟨none⟩ [Val.str "a", Val.other (GoVal.float64 5), Val.str "v"] rfl).mpr
        (Or.inr (Or.inl (by simp)))⟩,
    ⟨rfl,
      (Set_atomic_iff ⟨some scalarTree⟩
        [Val.str "a", Val.other (GoVal.float64 5), Val.str "k", Val.str "v"] rfl).mpr
        (Or.inr (Or.inr (by simp [noCreation, JSON.tree, scalarTree, Val.Map, mapGet])))⟩⟩

theorem registers_iff_specKeys {α τ : Type} (env : GoEnv α τ) (sf : StructField τ)
    (k : String) : registers env sf k ↔ k ∈ specKeys env sf := by
  unfold registers specKeys
  by_cases hx : sf.tag = "-"
  · simp [hx]
  · by_cases ht : sf.tag = ""
    · simp [hx, ht]
    · simp [hx, ht]

/-- C16, counterexample. In the table of the fixture type `Person` the field `Name`,
which has the directive `name`, has an entry under the directive and a second entry
under its identifier `Name`. -/
theorem tagmap_counterexample :
    personType[1]? = some { Name := "Name", tag := "name", type := GoType.string } ∧
    mapGet (buildTagmap (goEnv fixtureDocs) personType) "name" = some "Name" ∧
    mapGet (buildTagmap (goEnv fixtureDocs) personType) "Name" = some "Name" ∧
    "Name" ≠ "name" :=
  ⟨rfl, rfl, rfl, by decide⟩

/-- C16, amended. The table built at the start of decode is empty for a type without
fields, and in general has an entry under `k` exactly when some field lists `k` among
its keys: identifier and tag for a tagged field, identifier and lowercase identifier
for an untagged one, nothing for an excluded one.  The entry holds the identifier of
the last field in declaration order that lists `k`. -/
theorem buildTagmap_spec {α τ : Type} (env : GoEnv α τ) (dt : List (StructField τ)) :
    buildTagmap env ([] : List (StructField τ)) = [] ∧
    ∀ k name, mapGet (buildTagmap env dt) k = some name ↔
      ∃ pre sf post, dt = pre ++ sf :: post ∧ k ∈ specKeys env sf ∧ sf.Name = name ∧
        ∀ g ∈ post, k ∉ specKeys env g := by
  refine ⟨rfl, ?_⟩
  intro k name
  constructor
  · intro h
    rcases foldl_tagmap_some env dt [] k name h with ⟨pre, sf, post, hdt, hr, hn, hp⟩ | ⟨h1, _⟩
    · exact ⟨pre, sf, post, hdt, (registers_iff_specKeys env sf k).mp hr, hn,
        fun g hg hk => hp g hg ((registers_iff_specKeys env g k).mpr hk)⟩
    · simp [mapGet] at h1
  · rintro ⟨pre, sf, post, hdt, hk, hn, hp⟩
    subst hdt hn
    exact foldl_tagmap_last env pre post sf [] k ((registers_iff_specKeys env sf k).mpr hk)
      (fun g hg hr => hp g hg ((registers_iff_specKeys env g k).mp hr))

/-- Witness for C16 (amended) on the fixture: the entry under `address` comes from
the untagged field `Address`. -/
theorem buildTagmap_spec_witness :
    mapGet (buildTagmap (goEnv fixtureDocs) personType) "address" = some "Address" :=
  ((buildTagmap_spec (goEnv fixtureDocs) personType).2 "address" "Address").mpr
    ⟨[{ Name := "JSON", tag := "-", type := GoType.handle },
      { Name := "Name", tag := "name", type := GoType.string },
      { Name := "Age", tag := "age", type := GoType.int }],
     { Name := "Address", tag := "", type := GoType.string },
     [{ Name := "CreatedAt", tag := "", type := GoType.time },
      { Name := "Ignored", tag := "-", type := GoType.bool }],
     rfl, by decide, rfl, by decide⟩

/-- C17, failing input. For the field `Name` with the tag `name,omitempty` holding
the empty string, `syncFromStruct` on the empty object writes the field (the zero
value is not left out) under the key `name,omitempty`, the whole tag, and not under
`name`; decode likewise routes the document key `name` to no field. -/
theorem syncFromStruct_keeps_omitempty_in_key :
    syncFromStruct omitType (fun _ => (Val.str "" : Val GoVal)) (Val.obj [])
      = Val.obj [("name,omitempty", Val.str "")] ∧
    (syncFromStruct omitType (fun _ => (Val.str "" : Val GoVal)) (Val.obj [])).CheckGet "name"
      = none ∧
    resolve (goEnv fixtureDocs) omitType "name" = none :=
  ⟨rfl, rfl, rfl⟩

/-! ## Visiting order -/

theorem syncEntry_congr {α τ : Type} [DecidableEq τ] (env : GoEnv α τ)
    (f : String → τ → Val α → Val α × Option Error) (hfw : fieldwise env f)
    (dt : List (StructField τ)) (dv dv1 : Record α) (k : String) (v : Val α) (i : Nat)
    (sf : StructField τ) (hres : resolve env dt k = some (i, sf)) (h : dv1 i = dv i) :
    (syncEntry env dt dv1 k v).2 = (syncEntry env dt dv k v).2 ∧
      (syncEntry env dt dv1 k v).1 i = (syncEntry env dt dv k v).1 i := by
  unfold syncEntry
  rw [hres]
  simp only
  unfold assign
  by_cases ht : env.typeOf v = sf.type
  · simp [ht]
  · cases hm : env.marshal v with
    | error err => simp [ht, h]
    | ok marsh => simp [ht, h, hfw marsh sf.type i dv, hfw marsh sf.type i dv1]

theorem routedTo_of_resolve {α τ : Type} (env : GoEnv α τ) (dt : List (StructField τ))
    (k : String) (v : Val α) (j : Nat) (sf : StructField τ)
    (hres : resolve env dt k = some (j, sf)) (i : Nat) :
    routedTo env dt i (k, v) = true ↔ j = i := by
  simp [routedTo, hres]

theorem syncEntry_after_other {α τ : Type} [DecidableEq τ] (env : GoEnv α τ)
    (f : String → τ → Val α → Val α × Option Error) (hfw : fieldwise env f)
    (dt : List (StructField τ)) (dv : Record α) (e e2 : String × Val α)
    (rest : List (String × Val α)) (he2 : e2 ∈ rest)
    (hinj : ∀ i, ((e :: rest).filter (routedTo env dt i)).length ≤ 1) :
    (syncEntry env dt (syncEntry env dt dv e.1 e.2).1 e2.1 e2.2).2
        = (syncEntry env dt dv e2.1 e2.2).2 ∧
      ∀ i, routedTo env dt i e2 = true →
        (syncEntry env dt (syncEntry env dt dv e.1 e.2).1 e2.1 e2.2).1 i
          = (syncEntry env dt dv e2.1 e2.2).1 i := by
  cases hres : resolve env dt e2.1 with
  | none =>
    refine ⟨by simp [syncEntry, hres], ?_⟩
    intro i hi
    simp [routedTo, hres] at hi
  | some p =>
    obtain ⟨j, sf⟩ := p
    have hj2 : routedTo env dt j e2 = true :=
      (routedTo_of_resolve env dt e2.1 e2.2 j sf hres j).mpr rfl
    have hj1 : routedTo env dt j e = false := by
      by_contra hc
      simp only [Bool.not_eq_false] at hc
      have hlen := hinj j
      simp only [List.filter_cons, hc, if_true, List.length_cons] at hlen
      have hmem : e2 ∈ rest.filter (routedTo env dt j) := List.mem_filter.mpr ⟨he2, hj2⟩
      have := List.length_pos_of_mem hmem
      omega
    have hfr := syncEntry_frame env dt dv e.1 e.2 j hj1 (unshared_of_fieldwise env f hfw j)
    have hc := syncEntry_congr env f hfw dt dv (syncEntry env dt dv e.1 e.2).1 e2.1 e2.2 j sf
      hres hfr
    refine ⟨hc.1, ?_⟩
    intro i hi
    have hij := (routedTo_of_resolve env dt e2.1 e2.2 j sf hres i).mp hi
    subst hij
    exact hc.2

theorem syncLoop_char {α τ : Type} [DecidableEq τ] (env : GoEnv α τ)
    (f : String → τ → Val α → Val α × Option Error) (hfw : fieldwise env f)
    (dt : List (StructField τ)) (entries : List (String × Val α)) (dv : Record α)
    (hinj : ∀ i, (entries.filter (routedTo env dt i)).length ≤ 1) :
    ((syncLoop env dt entries dv).2 = none ↔
        ∀ e ∈ entries, (syncEntry env dt dv e.1 e.2).2 = none) ∧
      ((syncLoop env dt entries dv).2 = none →
        ∀ i, (syncLoop env dt entries dv).1 i = fieldAfter env dt dv entries i) := by
  induction entries generalizing dv with
  | nil => simp [syncLoop, fieldAfter]
  | cons e rest ih =>
    obtain ⟨k, v⟩ := e
    have hrest : ∀ i, (rest.filter (routedTo env dt i)).length ≤ 1 := by
      intro i
      have := hinj i
      by_cases hr : routedTo env dt i (k, v) = true
      · simp only [List.filter_cons, hr, if_true, List.length_cons] at this
        omega
      · simpa [List.filter_cons, hr] using this
    have hF := fun e2 he2 => syncEntry_after_other env f hfw dt dv (k, v) e2 rest he2 hinj
    by_cases he : (syncEntry env dt dv k v).2 = none
    · rw [syncLoop_cons_ok env dt dv k v rest he]
      obtain ⟨iha, ihb⟩ := ih (syncEntry env dt dv k v).1 hrest
      constructor
      · rw [iha]
        constructor
        · intro h e2 he2
          rcases List.mem_cons.mp he2 with h1 | h1
          · subst h1; exact he
          · rw [← (hF e2 h1).1]; exact h e2 h1
        · intro h e2 he2
          rw [(hF e2 he2).1]
          exact h e2 (List.mem_cons_of_mem _ he2)
      · intro hok i
        rw [ihb hok i]
        unfold fieldAfter
        by_cases hr : routedTo env dt i (k, v) = true
        · have hlen := hinj i
          simp only [List.filter_cons, hr, if_true, List.length_cons] at hlen
          have hnil : rest.filter (routedTo env dt i) = [] :=
            List.eq_nil_of_length_eq_zero (by omega)
          simp [List.filter_cons, hr, hnil]
        · simp only [Bool.not_eq_true] at hr
          simp only [List.filter_cons, hr]
          cases hf : rest.filter (routedTo env dt i) with
          | nil =>
            simpa using syncEntry_frame env dt dv k v i hr (unshared_of_fieldwise env f hfw i)
          | cons e2 tl =>
            have hmem : e2 ∈ rest.filter (routedTo env dt i) := by rw [hf]; simp
            obtain ⟨h1, h2⟩ := List.mem_filter.mp hmem
            simpa using (hF e2 h1).2 i h2
    · rw [syncLoop_cons_err env dt dv k v rest he]
      constructor
      · constructor
        · intro h; exact absurd h he
        · intro h; exact absurd (h (k, v) (List.mem_cons_self _ _)) he
      · intro h; exact absurd h he

theorem perm_eq_of_length_le_one {β : Type} (l1 l2 : List β) (h : l1.Perm l2)
    (hlen : l2.length ≤ 1) : l1 = l2 := by
  cases l2 with
  | nil => exact List.Perm.eq_nil h
  | cons x tl =>
    cases tl with
    | nil => exact List.perm_singleton.mp h
    | cons y tl2 => simp at hlen

theorem fieldAfter_perm {α τ : Type} [DecidableEq τ] (env : GoEnv α τ)
    (dt : List (StructField τ)) (dv : Record α) (order m : List (String × Val α))
    (hperm : order.Perm m) (i : Nat)
    (hinj : (m.filter (routedTo env dt i)).length ≤ 1) :
    fieldAfter env dt dv order i = fieldAfter env dt dv m i := by
  unfold fieldAfter
  rw [perm_eq_of_length_le_one _ _ (hperm.filter (routedTo env dt i)) hinj]

/-- C18, counterexample. In the sharing fixture the fields `A` and `B` hold the same
pointer. In the document with `A` 1 and `B` 2 no two root entries are routed to the
same field and decode succeeds in both visiting orders, but `A` points to 2 when `B`
is visited last and to 1 when `A` is visited last: the two records differ. -/
theorem decode_order_counterexample :
    (∀ i, (abEntries.filter (routedTo ptrEnv sharedType i)).length ≤ 1) ∧
    abEntries.reverse.Perm abEntries ∧
    (JSON.UnmarshalJSON ptrEnv sharedType ⟨none⟩ sharedRecord abDoc abEntries).2.2 = none ∧
    (JSON.UnmarshalJSON ptrEnv sharedType ⟨none⟩ sharedRecord abDoc
      abEntries.reverse).2.2 = none ∧
    (JSON.UnmarshalJSON ptrEnv sharedType ⟨none⟩ sharedRecord abDoc abEntries).2.1 0
      = Val.other (PtrVal.intPtr 1 2) ∧
    (JSON.UnmarshalJSON ptrEnv sharedType ⟨none⟩ sharedRecord abDoc
      abEntries.reverse).2.1 0 = Val.other (PtrVal.intPtr 1 1) ∧
    (JSON.UnmarshalJSON ptrEnv sharedType ⟨none⟩ sharedRecord abDoc abEntries.reverse).2.1
      ≠ (JSON.UnmarshalJSON ptrEnv sharedType ⟨none⟩ sharedRecord abDoc abEntries).2.1 := by
  refine ⟨?_, List.reverse_perm _, rfl, rfl, rfl, rfl, ?_⟩
  · intro i
    have h1 : resolve ptrEnv sharedType "A"
        = some (0, { Name := "A", tag := "", type := PtrType.intPtr }) := rfl
    have h2 : resolve ptrEnv sharedType "B"
        = some (1, { Name := "B", tag := "", type := PtrType.intPtr }) := rfl
    simp only [abEntries, List.filter_cons, List.filter_nil, routedTo, h1, h2]
    split_ifs <;> simp_all
  · intro h
    have h0 := congrFun h 0
    have h2 : (Val.other (PtrVal.intPtr 1 1) : Val PtrVal) = Val.other (PtrVal.intPtr 1 2) := h0
    simp only [Val.other.injEq] at h2
    exact absurd h2 (by decide)

/-- C18, amended. Decode is independent of the visiting order on a record in which
no two fields share a map or pointer: for an object-rooted document in which no two
root entries are routed to the same field, if decode succeeds when the root map is
visited in one order then it succeeds when visited in any other order and gives the
same record. -/
theorem decode_order_independent {α τ : Type} [DecidableEq τ] (env : GoEnv α τ)
    (f : String → τ → Val α → Val α × Option Error)
    (dt : List (StructField τ)) (js : JSON α) (dv : Record α) (data : String)
    (m order1 order2 : List (String × Val α))
    (hfw : fieldwise env f)
    (hdoc : env.newJson data = .ok (Val.obj m))
    (h1 : order1.Perm m) (h2 : order2.Perm m)
    (hinj : ∀ i, (m.filter (routedTo env dt i)).length ≤ 1)
    (hok : (js.UnmarshalJSON env dt dv data order1).2.2 = none) :
    (js.UnmarshalJSON env dt dv data order2).2.2 = none ∧
      (js.UnmarshalJSON env dt dv data order2).2.1
        = (js.UnmarshalJSON env dt dv data order1).2.1 := by
  rw [UnmarshalJSON_record env dt js dv data order1 m hdoc] at hok ⊢
  rw [UnmarshalJSON_record env dt js dv data order2 m hdoc]
  have hinj1 : ∀ i, (order1.filter (routedTo env dt i)).length ≤ 1 := by
    intro i; rw [(h1.filter (routedTo env dt i)).length_eq]; exact hinj i
  have hinj2 : ∀ i, (order2.filter (routedTo env dt i)).length ≤ 1 := by
    intro i; rw [(h2.filter (routedTo env dt i)).length_eq]; exact hinj i
  obtain ⟨a1, b1⟩ := syncLoop_char env f hfw dt order1 dv hinj1
  obtain ⟨a2, b2⟩ := syncLoop_char env f hfw dt order2 dv hinj2
  have hok2 : (syncLoop env dt order2 dv).2 = none := by
    rw [a2]
    intro e he
    exact a1.mp hok e (h1.symm.subset (h2.subset he))
  refine ⟨hok2, ?_⟩
  funext i
  rw [b2 hok2 i, b1 hok i, fieldAfter_perm env dt dv order2 m h2 i (hinj i),
    fieldAfter_perm env dt dv order1 m h1 i (hinj i)]

set_option maxRecDepth 100000 in
/-- Witness for C18 (amended) on the fixture: `jsondata` visited in document order and
in reverse. -/
theorem decode_order_independent_witness :
    fieldwise (goEnv fixtureDocs) goUnmarshal ∧
    (JSON.UnmarshalJSON (goEnv fixtureDocs) personType ⟨none⟩ personZero jsondata
      jsondataEntries.reverse).2.2 = none ∧
    (JSON.UnmarshalJSON (goEnv fixtureDocs) personType ⟨none⟩ personZero jsondata
      jsondataEntries.reverse).2.1
      = (JSON.UnmarshalJSON (goEnv fixtureDocs) personType ⟨none⟩ personZero jsondata
          jsondataEntries).2.1 :=
  ⟨fun _ _ _ _ => rfl,
    decode_order_independent (goEnv fixtureDocs) goUnmarshal personType ⟨none⟩ personZero
      jsondata jsondataEntries jsondataEntries jsondataEntries.reverse (fun _ _ _ _ => rfl)
      rfl (List.Perm.refl _) (List.reverse_perm _)
      (by
        intro i
        have h1 : resolve (goEnv fixtureDocs) personType "name"
            = some (1, { Name := "Name", tag := "name", type := GoType.string }) := rfl
        have h2 : resolve (goEnv fixtureDocs) personType "age"
            = some (2, { Name := "Age", tag := "age", type := GoType.int }) := rfl
        have h3 : resolve (goEnv fixtureDocs) personType "address"
            = some (3, { Name := "Address", tag := "", type := GoType.string }) := rfl
        have h4 : resolve (goEnv fixtureDocs) personType "CreatedAt"
            = some (4, { Name := "CreatedAt", tag := "", type := GoType.time }) := rfl
        have h5 : resolve (goEnv fixtureDocs) personType "Ignored" = none := rfl
        have h6 : resolve (goEnv fixtureDocs) personType "Extra" = none := rfl
        simp only [jsondataEntries, List.filter_cons, List.filter_nil, routedTo, h1, h2, h3,
          h4, h5, h6]
        split_ifs <;> simp_all <;> omega)
      rfl⟩

/-! ## Record to tree to record -/

theorem mem_keys_mapSet {β : Type} (m : List (String × β)) (k x : String) (v : β)
    (h : x ∈ (mapSet m k v).map Prod.fst) : x = k ∨ x ∈ m.map Prod.fst := by
  induction m with
  | nil => simpa [mapSet] using h
  | cons e rest ih =>
    obtain ⟨k1, v1⟩ := e
    by_cases hk : k1 = k
    · simp only [mapSet, hk, if_true, List.map_cons, List.mem_cons] at h ⊢
      rcases h with h | h
      · exact Or.inl h
      · exact Or.inr (Or.inr h)
    · simp only [mapSet, hk, if_false, List.map_cons, List.mem_cons] at h ⊢
      rcases h with h | h
      · exact Or.inr (Or.inl h)
      · rcases ih h with h2 | h2
        · exact Or.inl h2
        · exact Or.inr (Or.inr h2)

theorem mapSet_keys_nodup {β : Type} (m : List (String × β)) (k : String) (v : β)
    (h : (m.map Prod.fst).Nodup) : ((mapSet m k v).map Prod.fst).Nodup := by
  induction m with
  | nil => simp [mapSet]
  | cons e rest ih =>
    obtain ⟨k1, v1⟩ := e
    simp only [List.map_cons, List.nodup_cons] at h
    by_cases hk : k1 = k
    · simp only [mapSet, hk, if_true, List.map_cons, List.nodup_cons]
      exact ⟨hk ▸ h.1, h.2⟩
    · simp only [mapSet, hk, if_false, List.map_cons, List.nodup_cons]
      refine ⟨?_, ih h.2⟩
      intro hmem
      rcases mem_keys_mapSet rest k k1 v hmem with h2 | h2
      · exact hk h2
      · exact h.1 h2

theorem syncFromLoop_keys_nodup {α τ : Type} (dv : Record α) (dt : List (StructField τ))
    (i : Nat) (m m2 : List (String × Val α)) (h : (m.map Prod.fst).Nodup)
    (hm2 : syncFromLoop dv dt i (Val.obj m) = Val.obj m2) : (m2.map Prod.fst).Nodup := by
  induction dt generalizing i m with
  | nil =>
    simp only [syncFromLoop, Val.obj.injEq] at hm2
    exact hm2 ▸ h
  | cons sf rest ih =>
    by_cases ht : sf.tag = "-"
    · simp only [syncFromLoop, ht, if_true] at hm2
      exact ih (i + 1) m h hm2
    · simp only [syncFromLoop, ht, if_false, Set_obj] at hm2
      exact ih (i + 1) _ (mapSet_keys_nodup m _ _ h) hm2

theorem mem_of_mapGet {β : Type} (m : List (String × β)) (k : String) (v : β)
    (h : mapGet m k = some v) : (k, v) ∈ m := by
  induction m with
  | nil => simp [mapGet] at h
  | cons e rest ih =>
    obtain ⟨k1, v1⟩ := e
    by_cases hk : k1 = k
    · simp only [mapGet, hk, if_true, Option.some.injEq] at h
      simp [hk, h]
    · simp only [mapGet, hk, if_false] at h
      exact List.mem_cons_of_mem _ (ih h)

theorem mapGet_of_mem {β : Type} (m : List (String × β)) (k : String) (v : β)
    (hnd : (m.map Prod.fst).Nodup) (h : (k, v) ∈ m) : mapGet m k = some v := by
  induction m with
  | nil => simp at h
  | cons e rest ih =>
    obtain ⟨k1, v1⟩ := e
    simp only [List.map_cons, List.nodup_cons] at hnd
    rcases List.mem_cons.mp h with h1 | h1
    · simp only [Prod.mk.injEq] at h1
      simp [mapGet, h1.1, h1.2]
    · have hk : ¬ k1 = k := by
        intro hk
        apply hnd.1
        rw [hk]
        exact List.mem_map.mpr ⟨(k, v), h1, rfl⟩
      simp only [mapGet, hk, if_false]
      exact ih hnd.2 h1

theorem eq_singleton_of_nodup {β : Type} (l : List β) (x : β) (hnd : l.Nodup) (hx : x ∈ l)
    (hall : ∀ a ∈ l, a = x) : l = [x] := by
  cases l with
  | nil => simp at hx
  | cons a tl =>
    have ha := hall a (List.mem_cons_self _ _)
    subst ha
    cases tl with
    | nil => rfl
    | cons b tl2 =>
      have hb := hall b (by simp)
      subst hb
      simp at hnd

theorem syncLoop_ok_of_entries {α τ : Type} [DecidableEq τ] (env : GoEnv α τ)
    (dt : List (StructField τ)) (entries : List (String × Val α))
    (h : ∀ e ∈ entries, ∀ dv, (syncEntry env dt dv e.1 e.2).2 = none) (dv : Record α) :
    (syncLoop env dt entries dv).2 = none := by
  induction entries generalizing dv with
  | nil => rfl
  | cons e rest ih =>
    obtain ⟨k, v⟩ := e
    rw [syncLoop_cons_ok env dt dv k v rest (h (k, v) (List.mem_cons_self _ _) dv)]
    exact ih (fun e2 he2 => h e2 (List.mem_cons_of_mem _ he2)) _

theorem resolve_effectiveKey {α τ : Type} (env : GoEnv α τ) (dt : List (StructField τ))
    (hnd : (dt.map (fun g => g.Name)).Nodup)
    (hshadow : dt.Pairwise (fun f g => f.tag ≠ "-" → effectiveKey f ∉ specKeys env g))
    (i : Nat) (sf : StructField τ) (hi : dt[i]? = some sf) (hsf : sf.tag ≠ "-") :
    resolve env dt (effectiveKey sf) = some (i, sf) := by
  obtain ⟨pre, post, hdt, hlen⟩ := getElem_decompose dt i sf hi
  subst hdt hlen
  have hpost : ∀ g2 ∈ post, ¬ registers env g2 (effectiveKey sf) := by
    intro g2 hg2 hr
    have hp := (List.pairwise_append.mp hshadow).2.1
    exact (List.rel_of_pairwise_cons hp hg2) hsf ((registers_iff_specKeys env g2 _).mp hr)
  exact resolve_of_last env pre post sf hnd _ (registers_effectiveKey env sf hsf) hpost

theorem flushed_entry {α τ : Type} (env : GoEnv α τ) (dt : List (StructField τ))
    (r : Record α) (m2 : List (String × Val α))
    (hnd : (dt.map (fun g => g.Name)).Nodup)
    (hdist : ((dt.filter (fun g => decide (g.tag ≠ "-"))).map effectiveKey).Nodup)
    (hshadow : dt.Pairwise (fun f g => f.tag ≠ "-" → effectiveKey f ∉ specKeys env g))
    (hmap : syncFromStruct dt r (Val.obj []) = Val.obj m2)
    (e : String × Val α) (he : e ∈ m2) :
    ∃ j g, dt[j]? = some g ∧ g.tag ≠ "-" ∧ e = (effectiveKey g, r j) ∧
      resolve env dt e.1 = some (j, g) := by
  have hkeys : (m2.map Prod.fst).Nodup :=
    syncFromLoop_keys_nodup r dt 0 [] m2 (by simp) hmap
  have hget : mapGet m2 e.1 = some e.2 := mapGet_of_mem m2 e.1 e.2 hkeys he
  have h2 : syncFromLoop r dt 0 (Val.obj []) = Val.obj m2 := hmap
  have hsome : ((syncFromLoop r dt 0 (Val.obj [])).CheckGet e.1).isSome = true := by
    rw [h2, CheckGet_obj, hget]; rfl
  rcases (syncFromLoop_keys r dt 0 [] e.1).mp hsome with h0 | ⟨g, hg, hgt, hge⟩
  · simp [mapGet] at h0
  · obtain ⟨j, hj⟩ := List.mem_iff_getElem?.mp hg
    have hval := syncFromLoop_get_distinct dt r [] j g hdist hj hgt
    rw [h2, CheckGet_obj, hge, hget] at hval
    refine ⟨j, g, hj, hgt, Prod.ext hge.symm (Option.some.inj hval), ?_⟩
    rw [← hge]
    exact resolve_effectiveKey env dt hnd hshadow j g hj hgt

/-- C19, counterexample. In `shadowType` the effective keys `Bar` and `baz` are
distinct, but `Bar` is also the identifier of the second field: the tree written for
the record (`one`, `two`) decodes without error into a fresh record whose first field
is still empty, in either visiting order. -/
theorem record_tree_record_counterexample :
    ((shadowType.filter (fun g => decide (g.tag ≠ "-"))).map effectiveKey).Nodup ∧
    syncFromStruct shadowType shadowRecord (Val.obj []) = Val.obj shadowEntries ∧
    (syncToStruct (goEnv fixtureDocs) shadowType (fun _ => Val.str "")
      (syncFromStruct shadowType shadowRecord (Val.obj [])) shadowEntries).2 = none ∧
    shadowRecord 0 = Val.str "one" ∧
    (syncToStruct (goEnv fixtureDocs) shadowType (fun _ => Val.str "")
      (syncFromStruct shadowType shadowRecord (Val.obj [])) shadowEntries).1 0 = Val.str "" ∧
    (syncToStruct (goEnv fixtureDocs) shadowType (fun _ => Val.str "")
      (syncFromStruct shadowType shadowRecord (Val.obj [])) shadowEntries.reverse).1 0
        = Val.str "" ∧
    (syncToStruct (goEnv fixtureDocs) shadowType (fun _ => Val.str "")
      (syncFromStruct shadowType shadowRecord (Val.obj [])) shadowEntries).1 0
        ≠ shadowRecord 0 := by
  refine ⟨by decide, rfl, rfl, rfl, rfl, rfl, ?_⟩
  intro h
  have h2 : (Val.str "" : Val GoVal) = Val.str "one" := h
  simp only [Val.str.injEq] at h2
  exact absurd h2 (by decide)

/-- C19, amended. For a record type with pairwise distinct identifiers and pairwise
distinct effective keys in which no field lists among its keys (identifier, tag or
lowercase identifier) the effective key of a field declared before it, and a record
whose non-excluded fields hold values of the declared field types: `syncFromStruct`
on the empty object followed by `syncToStruct` of that tree into any record, in any
visiting order, returns no error and gives every non-excluded field the value it has
in the first record. -/
theorem record_tree_record_roundtrip {α τ : Type} [DecidableEq τ] (env : GoEnv α τ)
    (dt : List (StructField τ)) (r dv0 : Record α) (order m2 : List (String × Val α))
    (hnd : (dt.map (fun g => g.Name)).Nodup)
    (hdist : ((dt.filter (fun g => decide (g.tag ≠ "-"))).map effectiveKey).Nodup)
    (hshadow : dt.Pairwise (fun f g => f.tag ≠ "-" → effectiveKey f ∉ specKeys env g))
    (htyped : ∀ i sf, dt[i]? = some sf → sf.tag ≠ "-" → env.typeOf (r i) = sf.type)
    (hmap : syncFromStruct dt r (Val.obj []) = Val.obj m2)
    (hperm : order.Perm m2) :
    (syncToStruct env dt dv0 (syncFromStruct dt r (Val.obj [])) order).2 = none ∧
    ∀ i sf, dt[i]? = some sf → sf.tag ≠ "-" →
      (syncToStruct env dt dv0 (syncFromStruct dt r (Val.obj [])) order).1 i = r i := by
  have hentry := flushed_entry env dt r m2 hnd hdist hshadow hmap
  have hsync : syncToStruct env dt dv0 (syncFromStruct dt r (Val.obj [])) order
      = syncLoop env dt order dv0 := by
    rw [hmap]; rfl
  rw [hsync]
  have hok : (syncLoop env dt order dv0).2 = none := by
    apply syncLoop_ok_of_entries
    intro e he dv
    obtain ⟨j, g, hj, hgt, hee, hres⟩ := hentry e (hperm.subset he)
    have ht := htyped j g hj hgt
    have he2 : e.2 = r j := by rw [hee]
    simp [syncEntry, hres, assign, he2, ht]
  refine ⟨hok, ?_⟩
  intro i sf hi hsf
  have hkeys : (m2.map Prod.fst).Nodup :=
    syncFromLoop_keys_nodup r dt 0 [] m2 (by simp) hmap
  have hval := syncFromLoop_get_distinct dt r [] i sf hdist hi hsf
  have h2 : syncFromLoop r dt 0 (Val.obj []) = Val.obj m2 := hmap
  rw [h2, CheckGet_obj] at hval
  have hx : (effectiveKey sf, r i) ∈ m2 := mem_of_mapGet m2 _ _ hval
  have hres := resolve_effectiveKey env dt hnd hshadow i sf hi hsf
  have hfilter : m2.filter (routedTo env dt i) = [(effectiveKey sf, r i)] := by
    apply eq_singleton_of_nodup
    · exact (List.Nodup.of_map _ hkeys).filter _
    · exact List.mem_filter.mpr ⟨hx, (routedTo_of_resolve env dt _ _ i sf hres i).mpr rfl⟩
    · intro a ha
      obtain ⟨ha1, ha2⟩ := List.mem_filter.mp ha
      obtain ⟨j, g, hj, hgt, hae, hresa⟩ := hentry a ha1
      have hji : j = i := (routedTo_of_resolve env dt a.1 a.2 j g hresa i).mp ha2
      subst hji
      rw [hi] at hj
      have hg : sf = g := Option.some.inj hj
      subst hg
      exact hae
  have hfr : ∀ e ∈ order, routedTo env dt i e = false →
      ∀ dv2, (syncEntry env dt dv2 e.1 e.2).1 i = dv2 i := by
    intro e he hrt dv2
    obtain ⟨j, g, hj, hgt, hee, hrese⟩ := hentry e (hperm.subset he)
    have hji : ¬ j = i := by
      intro hji
      have := (routedTo_of_resolve env dt e.1 e.2 j g hrese i).mpr hji
      rw [hrt] at this
      exact Bool.noConfusion this
    have he2 : e.2 = r j := by rw [hee]
    have hd := assign_direct env dv2 j g e.2 (by rw [he2]; exact htyped j g hj hgt)
    simp only [syncEntry, hrese, hd]
    exact Function.update_noteq (fun h => hji h.symm) _ _
  obtain ⟨dv2, _, _, h3⟩ := syncLoop_single_of env dt order dv0 i sf (effectiveKey sf) (r i)
    (filter_single_of_perm _ order m2 _ hperm hfilter) hres hok hfr
  rw [h3, assign_direct env dv2 i sf (r i) (htyped i sf hi hsf)]
  exact Function.update_same _ _ _


/-- Witness for C19 (amended) on the fixture: the record of `TestEncode`, written to
the empty object and read back into a fresh `Person`, visiting the entries in
reverse. -/
theorem record_tree_record_roundtrip_witness :
    (personType.map (fun g => g.Name)).Nodup ∧
    personType.Pairwise (fun f g => f.tag ≠ "-" →
      effectiveKey f ∉ specKeys (goEnv fixtureDocs) g) ∧
    syncFromStruct personType personEncode (Val.obj []) = Val.obj personEncodeEntries ∧
    (syncToStruct (goEnv fixtureDocs) personType personZero
      (syncFromStruct personType personEncode (Val.obj [])) personEncodeEntries.reverse).2
        = none ∧
    (syncToStruct (goEnv fixtureDocs) personType personZero
      (syncFromStruct personType personEncode (Val.obj [])) personEncodeEntries.reverse).1 2
        = Val.other (GoVal.int 33) := by
  have h := record_tree_record_roundtrip (goEnv fixtureDocs) personType personEncode personZero
    personEncodeEntries.reverse personEncodeEntries (by decide) (by decide) (by decide)
    (by
      intro i sf hi hsf
      rcases i with _ | _ | _ | _ | _ | _ | n
      all_goals simp [personType] at hi
      all_goals subst hi
      all_goals rfl)
    rfl (List.reverse_perm _)
  exact ⟨by decide, by decide, rfl, h.1,
    h.2 2 { Name := "Age", tag := "age", type := GoType.int } rfl (by decide)⟩

end Lossless
